import Mathlib

/-! A verification development of `src/js/index.js`, the todo list page.

The page script keeps one array `todoList`, mirrors it into
`localStorage['todoData']` and into the children of the `.taskbar` element on
every `render()`, and changes it from two click handlers.

The embedding is shallow: the script's global state is a record `State`, every
handler is a function `State → State`, and what the host supplies to a handler
(the clock, the locale date, the answer to `confirm`, the click target) is an
argument of that function.  Host functions the script calls (`String.prototype.trim`,
`Number::toString`, `JSON.stringify`, `JSON.parse`) are written out after ECMA-262.

JavaScript strings are modelled by Lean strings (sequences of Unicode scalar
values), so strings holding an unpaired surrogate are outside the model.

The `li` elements of the list are recorded by what the script assigns to them:
class name, `dataset.id` and the string given to `innerHTML`.  The browser
parses that string into the children of the `li`; the parse is not modelled,
and nothing below says what the children are.
-/

namespace TodoList

/-! ## Data model -/

/-- An integer `Number` in the range where doubles are exact
(`Number.isSafeInteger`).  Every `Date.now()` value lies in it, since time
values are bounded by 8.64e15. -/
structure SafeInt where
  val : Int
  isSafe : val.natAbs ≤ 9007199254740991
deriving DecidableEq

/-- One record of `todoList`, as built at `index.js:70-75`. -/
structure Task where
  id : SafeInt
  text : String
  time : String
  isDone : Bool
deriving DecidableEq

/-- What the script assigns to one fresh `li` before appending it to `.taskbar`
(`index.js:36-50`): `className`, `dataset.id` and the string given to
`innerHTML`.  The children of the `li` are whatever the browser parses from
that string; they are not part of this record, and for a text that holds
markup they are not the three elements of the template. -/
structure Row where
  className : String
  datasetId : String
  innerHTML : String
deriving DecidableEq

/-- What the script does to the outside, in the order it does it. -/
inductive Effect where
  | alert (msg : String)
  | confirm (msg : String)
  | setItem (key value : String)
  | redraw
deriving DecidableEq

/-- The script's state: the global `todoList`, the item `todoData` of
`localStorage` (`none` when `getItem` returns `null`), the `li` elements
appended to `.taskbar` (each as the script assigned it), the `.input`
control, and the trace of effects so far. -/
structure State where
  todoList : List Task
  storage : Option String
  taskBar : List Row
  inputValue : String
  inputFocused : Bool
  trace : List Effect
deriving DecidableEq

/-! ## `String.prototype.trim` -/

/-- ECMA-262 `WhiteSpace` and `LineTerminator` code points, the ones `trim`
strips: TAB, LF, VT, FF, CR, SP, NBSP, U+1680, U+2000..U+200A, LS, PS,
U+202F, U+205F, U+3000 and ZWNBSP. -/
def isWhiteSpace (c : Char) : Bool :=
  let n := c.toNat
  n == 0x09 || n == 0x0A || n == 0x0B || n == 0x0C || n == 0x0D || n == 0x20
    || n == 0xA0 || n == 0x1680 || (0x2000 ≤ n && n ≤ 0x200A)
    || n == 0x2028 || n == 0x2029 || n == 0x202F || n == 0x205F
    || n == 0x3000 || n == 0xFEFF

/-- The `trimStart` half of `trim`. -/
def trimStart (cs : List Char) : List Char :=
  cs.dropWhile isWhiteSpace

/-- The `trimEnd` half of `trim`. -/
def trimEnd (cs : List Char) : List Char :=
  (cs.reverse.dropWhile isWhiteSpace).reverse

/-- The method `String.prototype.trim`, called at `index.js:61`. -/
def jsTrim (s : String) : String :=
  ⟨trimEnd (trimStart s.data)⟩

/-! ## `Number::toString` on safe integers -/

/-- The decimal digit character of `d < 10`. -/
def digitChar (d : Nat) : Char :=
  Char.ofNat (48 + d)

/-- Decimal digits of `n`, most significant first, pushed in front of `acc`. -/
def natDigitsAux : Nat → Nat → List Char → List Char
  | 0, _, acc => acc
  | fuel + 1, n, acc =>
    if n < 10 then digitChar n :: acc
    else natDigitsAux fuel (n / 10) (digitChar (n % 10) :: acc)

/-- The decimal numeral of a natural number. -/
def natDigits (n : Nat) : List Char :=
  natDigitsAux (n + 1) n []

/-- The algorithm `Number::toString` on an integer of magnitude below 1e21:
the plain decimal numeral, with a minus sign when negative. -/
def numberToString (n : Int) : List Char :=
  if n < 0 then '-' :: natDigits n.natAbs else natDigits n.natAbs

/-! ## `JSON.stringify` on `todoList` -/

/-- Lower-case hexadecimal digit of `d < 16`. -/
def hexDigitChar (d : Nat) : Char :=
  if d < 10 then Char.ofNat (48 + d) else Char.ofNat (87 + d)

/-- One code point of ECMA-262 `QuoteJSONString`: the short escapes, the
`\u00xx` form for the other control characters, everything else verbatim. -/
def escapeChar (c : Char) : List Char :=
  if c.toNat = 8 then ['\\', 'b']
  else if c.toNat = 9 then ['\\', 't']
  else if c.toNat = 10 then ['\\', 'n']
  else if c.toNat = 12 then ['\\', 'f']
  else if c.toNat = 13 then ['\\', 'r']
  else if c.toNat = 34 then ['\\', '"']
  else if c.toNat = 92 then ['\\', '\\']
  else if c.toNat < 32 then
    ['\\', 'u', '0', '0', hexDigitChar (c.toNat / 16), hexDigitChar (c.toNat % 16)]
  else [c]

/-- The body of a quoted JSON string, without the surrounding quotes. -/
def escapeChars : List Char → List Char
  | [] => []
  | c :: cs => escapeChar c ++ escapeChars cs

/-- ECMA-262 `QuoteJSONString`. -/
def quoteJSONString (s : String) : List Char :=
  '"' :: (escapeChars s.data ++ ['"'])

/-- The JSON text of a boolean. -/
def boolText (b : Bool) : List Char :=
  if b then "true".data else "false".data

/-- The text `JSON.stringify` gives one task record: its four own properties
in creation order `id`, `text`, `time`, `isDone` (`index.js:70-75`). -/
def stringifyTask (t : Task) : List Char :=
  "\x7b\"id\":".data ++ numberToString t.id.val
    ++ ",\"text\":".data ++ quoteJSONString t.text
    ++ ",\"time\":".data ++ quoteJSONString t.time
    ++ ",\"isDone\":".data ++ boolText t.isDone ++ "\x7d".data

/-- The elements of a JSON array, comma separated. -/
def stringifyElements : List Task → List Char
  | [] => []
  | [t] => stringifyTask t
  | t :: ts => stringifyTask t ++ ',' :: stringifyElements ts

/-- The call `JSON.stringify(todoList)` of `index.js:27`. -/
def jsonStringify (l : List Task) : String :=
  ⟨'[' :: (stringifyElements l ++ [']'])⟩

/-! ## `render` -/

/-- The class chosen at `index.js:44`. -/
def textClass (isDone : Bool) : String :=
  if isDone then "task-text completed" else "task-text"

/-- The string the template literal of `index.js:46-50` evaluates to.
`item.text` and `item.time` are interpolated as they are, without escaping,
so markup in them is markup in the result. -/
def rowMarkup (item : Task) : String :=
  "\n      <span class=\"" ++ textClass item.isDone ++ "\">" ++ item.text ++ "</span>\n"
    ++ "      <span class=\"task-time\">" ++ item.time ++ "</span>\n"
    ++ "      <button class=\"delete-btn\">删除</button>\n    "

/-- The assignments made to the `li` of one item in the body of the `forEach`
(`index.js:36-50`). -/
def renderRow (item : Task) : Row :=
  { className := "task-item"
    datasetId := ⟨numberToString item.id.val⟩
    innerHTML := rowMarkup item }

/-- The function `render` (`index.js:23-54`): write the snapshot, empty the
container, append one `li` per item. -/
def render (s : State) : State :=
  { s with
    storage := some (jsonStringify s.todoList)
    taskBar := s.todoList.foldl (fun rows item => rows ++ [renderRow item]) []
    trace := s.trace ++ [Effect.setItem "todoData" (jsonStringify s.todoList), Effect.redraw] }

/-! ## The add handler -/

/-- The click listener of `.btn-add` (`index.js:60-86`).  `now` is `Date.now()`
and `today` is `new Date().toLocaleDateString()`. -/
def btnAddClick (now : SafeInt) (today : String) (s : State) : State :=
  let taskText := jsTrim s.inputValue
  if taskText = "" then
    { s with trace := s.trace ++ [Effect.alert "空内容无法加入"] }
  else
    let newTask : Task := { id := now, text := taskText, time := today, isDone := false }
    let s1 := render { s with todoList := s.todoList ++ [newTask] }
    { s1 with inputValue := "", inputFocused := true }

/-- The spec's `add(rawText)`: the input holds `rawText` when the add control
is clicked.  The `keyup` listener of `index.js:129-134` calls `btnAdd.click()`
on Enter, so the Enter key runs the same handler. -/
def add (rawText : String) (now : SafeInt) (today : String) (s : State) : State :=
  btnAddClick now today { s with inputValue := rawText }

/-! ## The delegated click handler -/

/-- What the handler reads off `e.target`: the number
`Number(parentLi.dataset.id)` of the nearest `.task-item` ancestor (`none`
when `closest` finds no row) and the two class tests.  For a row drawn by
`render` the number is the id of the row's task.  The handler only compares
it with ids, so a number that is not an integer behaves like an integer no
task carries. -/
structure ClickTarget where
  closestTaskItem : Option Int
  hasDeleteBtn : Bool
  hasTaskText : Bool
deriving DecidableEq

/-- The assignment `task.isDone = !task.isDone` on the record `find` returned:
the first record with that id is changed in place. -/
def flipFirst (id : Int) : List Task → List Task
  | [] => []
  | t :: ts =>
    if t.id.val = id then { t with isDone := !t.isDone } :: ts
    else t :: flipFirst id ts

/-- Branch B of the click listener (`index.js:112-120`). -/
def toggleBranch (e : ClickTarget) (id : Int) (s : State) : State :=
  if e.hasTaskText then
    match s.todoList.find? (fun item => decide (item.id.val = id)) with
    | some _ => render { s with todoList := flipFirst id s.todoList }
    | none => s
  else s

/-- The click listener of `.taskbar` (`index.js:92-121`).  `answer` is what
`confirm` returns if it is called. -/
def taskBarClick (e : ClickTarget) (answer : Bool) (s : State) : State :=
  match e.closestTaskItem with
  | none => s
  | some id =>
    if e.hasDeleteBtn then
      let s1 := { s with trace := s.trace ++ [Effect.confirm "确定删除？"] }
      if !answer then s1
      else
        let s2 := render { s1 with todoList := s1.todoList.filter (fun item => decide (item.id.val ≠ id)) }
        toggleBranch e id s2
    else toggleBranch e id s

/-- The spec's `delete(id)`: a click on the delete button of a row whose
`dataset.id` reads `id`. -/
def delete (id : Int) (answer : Bool) (s : State) : State :=
  taskBarClick { closestTaskItem := some id, hasDeleteBtn := true, hasTaskText := false } answer s

/-- The spec's `toggleComplete(id)`: a click on the text label of a row whose
`dataset.id` reads `id`. -/
def toggleComplete (id : Int) (s : State) : State :=
  taskBarClick { closestTaskItem := some id, hasDeleteBtn := false, hasTaskText := true } false s

/-! ## `JSON.parse` -/

/-- A JSON value as `JSON.parse` builds it.  A number is kept as the exact
decimal `mantissa * 10 ^ exponent` its literal denotes; a string is `none`
when it holds an unpaired surrogate (written with `\u` escapes), which a Lean
string cannot hold. -/
inductive Json where
  | null
  | bool (b : Bool)
  | num (mantissa exponent : Int)
  | str (s : Option (List Char))
  | arr (items : List Json)
  | obj (members : List (Option (List Char) × Json))

/-- Outcome of a parsing function: a value and the unread input, a
`SyntaxError`, or the recursion budget of the model used up. -/
inductive Parsed (α : Type) where
  | ok (value : α) (rest : List Char)
  | syntaxError
  | outOfFuel

/-- JSON white space: TAB, LF, CR, SP. -/
def isJsonWs (c : Char) : Bool :=
  c.toNat == 9 || c.toNat == 10 || c.toNat == 13 || c.toNat == 32

/-- Skip JSON white space. -/
def skipWs (cs : List Char) : List Char :=
  cs.dropWhile isJsonWs

/-- Is `c` one of `0`..`9`? -/
def isDigit (c : Char) : Bool :=
  decide (48 ≤ c.toNat) && decide (c.toNat ≤ 57)

/-- The longest run of digits at the front, and what follows it. -/
def spanDigits : List Char → List Char × List Char
  | [] => ([], [])
  | c :: cs =>
    if isDigit c then ((spanDigits cs).1.cons c, (spanDigits cs).2)
    else ([], c :: cs)

/-- The number a run of digits denotes. -/
def digitsValue (ds : List Char) : Nat :=
  ds.foldl (fun v c => 10 * v + (c.toNat - 48)) 0

/-- Drop the literal `lit` from the front of the input, if it is there. -/
def dropLiteral : List Char → List Char → Option (List Char)
  | [], cs => some cs
  | _ :: _, [] => none
  | p :: ps, c :: cs => if p = c then dropLiteral ps cs else none

/-- Value of a hexadecimal digit. -/
def hexValue (c : Char) : Option Nat :=
  let n := c.toNat
  if 48 ≤ n ∧ n ≤ 57 then some (n - 48)
  else if 97 ≤ n ∧ n ≤ 102 then some (n - 87)
  else if 65 ≤ n ∧ n ≤ 70 then some (n - 55)
  else none

/-- The code unit written by the four hexadecimal digits of a `\u` escape. -/
def hex4 (a b c d : Char) : Option Nat :=
  match hexValue a, hexValue b, hexValue c, hexValue d with
  | some x, some y, some z, some w => some (((x * 16 + y) * 16 + z) * 16 + w)
  | _, _, _, _ => none

/-- The characters read so far in a string literal, last one first; a high
surrogate read from a `\u` escape and not yet paired; and whether an unpaired
surrogate has been seen. -/
structure StrAcc where
  chars : List Char
  pending : Option Nat
  lone : Bool

/-- Add an ordinary character: a pending high surrogate stays unpaired. -/
def StrAcc.pushChar (a : StrAcc) (c : Char) : StrAcc :=
  { chars := c :: a.chars, pending := none, lone := a.lone || a.pending.isSome }

/-- Add the code unit of a `\u` escape, pairing surrogates. -/
def StrAcc.pushUnit (a : StrAcc) (u : Nat) : StrAcc :=
  if 0xD800 ≤ u ∧ u ≤ 0xDBFF then
    { chars := a.chars, pending := some u, lone := a.lone || a.pending.isSome }
  else if 0xDC00 ≤ u ∧ u ≤ 0xDFFF then
    match a.pending with
    | some hi =>
      { chars := Char.ofNat (0x10000 + (hi - 0xD800) * 0x400 + (u - 0xDC00)) :: a.chars
        pending := none, lone := a.lone }
    | none => { chars := a.chars, pending := none, lone := true }
  else a.pushChar (Char.ofNat u)

/-- The string read, once the closing quote is met. -/
def StrAcc.finish (a : StrAcc) : Option (List Char) :=
  if a.lone || a.pending.isSome then none else some a.chars.reverse

/-- The character a one-letter escape stands for. -/
def simpleEscape (e : Char) : Option Char :=
  if e = '"' then some '"'
  else if e = '\\' then some '\\'
  else if e = '/' then some '/'
  else if e = 'b' then some (Char.ofNat 8)
  else if e = 'f' then some (Char.ofNat 12)
  else if e = 'n' then some (Char.ofNat 10)
  else if e = 'r' then some (Char.ofNat 13)
  else if e = 't' then some (Char.ofNat 9)
  else none

/-- A JSON string literal after its opening quote. -/
def parseString (a : StrAcc) : List Char → Parsed (Option (List Char))
  | [] => Parsed.syntaxError
  | c :: cs =>
    if c = '"' then Parsed.ok a.finish cs
    else if c = '\\' then
      match cs with
      | [] => Parsed.syntaxError
      | e :: cs1 =>
        if e = 'u' then
          match cs1 with
          | h1 :: h2 :: h3 :: h4 :: cs2 =>
            match hex4 h1 h2 h3 h4 with
            | some u => parseString (a.pushUnit u) cs2
            | none => Parsed.syntaxError
          | _ => Parsed.syntaxError
        else
          match simpleEscape e with
          | some ch => parseString (a.pushChar ch) cs1
          | none => Parsed.syntaxError
    else if c.toNat < 32 then Parsed.syntaxError
    else parseString (a.pushChar c) cs

/-- The empty accumulator. -/
def StrAcc.empty : StrAcc :=
  { chars := [], pending := none, lone := false }

/-- The exponent part of a number literal, if there is one: `frac` digits
were read after the point, `m` is the mantissa so far. -/
def parseExponent (m : Int) (frac : Nat) (cs : List Char) : Parsed Json :=
  match cs with
  | [] => Parsed.ok (Json.num m (-(frac : Int))) []
  | c :: r =>
    if c = 'e' ∨ c = 'E' then
      let signed : Bool × List Char :=
        match r with
        | [] => (false, [])
        | s :: r1 => if s = '-' then (true, r1) else if s = '+' then (false, r1) else (false, s :: r1)
      let ds := spanDigits signed.2
      if ds.1 = [] then Parsed.syntaxError
      else
        let x : Int := if signed.1 then -(digitsValue ds.1 : Int) else (digitsValue ds.1 : Int)
        Parsed.ok (Json.num m (x - (frac : Int))) ds.2
    else Parsed.ok (Json.num m (-(frac : Int))) (c :: r)

/-- The fraction part of a number literal, if there is one, then the
exponent; `neg` is the sign and `int` the digits of the integer part. -/
def parseFraction (neg : Bool) (int : List Char) (cs : List Char) : Parsed Json :=
  let sign : Int := if neg then -1 else 1
  match cs with
  | [] => Parsed.ok (Json.num (sign * (digitsValue int : Int)) 0) []
  | c :: r =>
    if c = '.' then
      let fs := spanDigits r
      if fs.1 = [] then Parsed.syntaxError
      else parseExponent (sign * (digitsValue (int ++ fs.1) : Int)) fs.1.length fs.2
    else parseExponent (sign * (digitsValue int : Int)) 0 (c :: r)

/-- The integer part of a number literal (a lone `0`, or a digit other than
`0` followed by digits), then the rest of it. -/
def parseInteger (neg : Bool) (cs : List Char) : Parsed Json :=
  match cs with
  | [] => Parsed.syntaxError
  | d :: r =>
    if isDigit d then
      if d = '0' then parseFraction neg [d] r
      else parseFraction neg (d :: (spanDigits r).1) (spanDigits r).2
    else Parsed.syntaxError

/-- A JSON number literal. -/
def parseNumber (cs : List Char) : Parsed Json :=
  match cs with
  | [] => Parsed.syntaxError
  | c :: r => if c = '-' then parseInteger true r else parseInteger false (c :: r)

/-- What the recursive parser is reading: a value, the elements of an array
after the first `[` or a comma, or the members of an object after the first
brace or a comma.  The accumulators hold what was read, last one first. -/
inductive Goal where
  | value
  | elements (acc : List Json)
  | members (acc : List (Option (List Char) × Json))

/-- The recursive-descent parser of JSON values.  Every recursive call takes
one unit of fuel. -/
def parseJson : Nat → Goal → List Char → Parsed Json
  | 0, _, _ => Parsed.outOfFuel
  | fuel + 1, Goal.value, cs =>
    match skipWs cs with
    | [] => Parsed.syntaxError
    | c :: r =>
      if c = '"' then
        match parseString StrAcc.empty r with
        | Parsed.ok s r1 => Parsed.ok (Json.str s) r1
        | Parsed.syntaxError => Parsed.syntaxError
        | Parsed.outOfFuel => Parsed.outOfFuel
      else if c = '[' then
        match skipWs r with
        | [] => Parsed.syntaxError
        | c1 :: r1 =>
          if c1 = ']' then Parsed.ok (Json.arr []) r1
          else parseJson fuel (Goal.elements []) (c1 :: r1)
      else if c.toNat = 123 then
        match skipWs r with
        | [] => Parsed.syntaxError
        | c1 :: r1 =>
          if c1.toNat = 125 then Parsed.ok (Json.obj []) r1
          else parseJson fuel (Goal.members []) (c1 :: r1)
      else if c = 'n' then
        match dropLiteral "ull".data r with
        | some r1 => Parsed.ok Json.null r1
        | none => Parsed.syntaxError
      else if c = 't' then
        match dropLiteral "rue".data r with
        | some r1 => Parsed.ok (Json.bool true) r1
        | none => Parsed.syntaxError
      else if c = 'f' then
        match dropLiteral "alse".data r with
        | some r1 => Parsed.ok (Json.bool false) r1
        | none => Parsed.syntaxError
      else parseNumber (c :: r)
  | fuel + 1, Goal.elements acc, cs =>
    match parseJson fuel Goal.value cs with
    | Parsed.ok v r =>
      match skipWs r with
      | [] => Parsed.syntaxError
      | c :: r1 =>
        if c = ',' then parseJson fuel (Goal.elements (v :: acc)) r1
        else if c = ']' then Parsed.ok (Json.arr (v :: acc).reverse) r1
        else Parsed.syntaxError
    | Parsed.syntaxError => Parsed.syntaxError
    | Parsed.outOfFuel => Parsed.outOfFuel
  | fuel + 1, Goal.members acc, cs =>
    match skipWs cs with
    | [] => Parsed.syntaxError
    | q :: r =>
      if q = '"' then
        match parseString StrAcc.empty r with
        | Parsed.ok k r1 =>
          match skipWs r1 with
          | [] => Parsed.syntaxError
          | c :: r2 =>
            if c = ':' then
              match parseJson fuel Goal.value r2 with
              | Parsed.ok v r3 =>
                match skipWs r3 with
                | [] => Parsed.syntaxError
                | c1 :: r4 =>
                  if c1 = ',' then parseJson fuel (Goal.members ((k, v) :: acc)) r4
                  else if c1.toNat = 125 then Parsed.ok (Json.obj ((k, v) :: acc).reverse) r4
                  else Parsed.syntaxError
              | Parsed.syntaxError => Parsed.syntaxError
              | Parsed.outOfFuel => Parsed.outOfFuel
            else Parsed.syntaxError
        | Parsed.syntaxError => Parsed.syntaxError
        | Parsed.outOfFuel => Parsed.outOfFuel
      else Parsed.syntaxError

/-- Outcome of `JSON.parse`. -/
inductive ParseResult where
  | value (v : Json)
  | syntaxError
  | outOfFuel

/-- The function `JSON.parse` on a text: one value, white space around it,
nothing else.  The fuel is enough for every text (`jsonParse_ne_outOfFuel`). -/
def jsonParse (text : List Char) : ParseResult :=
  match parseJson (2 * text.length + 2) Goal.value text with
  | Parsed.ok v r => if skipWs r = [] then ParseResult.value v else ParseResult.syntaxError
  | Parsed.syntaxError => ParseResult.syntaxError
  | Parsed.outOfFuel => ParseResult.outOfFuel

/-! ## Start of the page -/

/-- Does a number literal denote a value that rounds to zero?  Either its
mantissa is zero, or its magnitude is at most `2 ^ (-1075)`, half of the
least positive double (a tie goes to the even neighbour, zero). -/
def numIsZero (m e : Int) : Bool :=
  decide (m = 0) || (decide (e < 0) && decide (m.natAbs * 2 ^ 1075 ≤ 10 ^ (-e).toNat))

/-- ECMA-262 `ToBoolean` on a parsed value, as the operator `||` of
`index.js:16` applies it. -/
def Json.truthy : Json → Bool
  | Json.null => false
  | Json.bool b => b
  | Json.num m e => !numIsZero m e
  | Json.str s => !decide (s = some [])
  | Json.arr _ => true
  | Json.obj _ => true

/-- The safe integer a number literal denotes exactly, if it denotes one. -/
def decodeSafeInt (m e : Int) : Option SafeInt :=
  if 0 ≤ e then
    if h : (m * 10 ^ e.toNat).natAbs ≤ 9007199254740991 then some ⟨m * 10 ^ e.toNat, h⟩ else none
  else if m % 10 ^ (-e).toNat = 0 then
    if h : (m / 10 ^ (-e).toNat).natAbs ≤ 9007199254740991 then some ⟨m / 10 ^ (-e).toNat, h⟩ else none
  else none

/-- Read a parsed value as a task record of the data model: an object with
exactly the properties `id`, `text`, `time`, `isDone`, in that order, of the
types the add handler gives them. -/
def decodeTask : Json → Option Task
  | Json.obj [(k1, Json.num m e), (k2, Json.str (some text)), (k3, Json.str (some time)),
      (k4, Json.bool isDone)] =>
    if k1 = some "id".data ∧ k2 = some "text".data ∧ k3 = some "time".data
        ∧ k4 = some "isDone".data then
      match decodeSafeInt m e with
      | some id => some { id := id, text := ⟨text⟩, time := ⟨time⟩, isDone := isDone }
      | none => none
    else none
  | _ => none

/-- Read every element of an array as a task record. -/
def decodeTasks : List Json → Option (List Task)
  | [] => some []
  | j :: js =>
    match decodeTask j, decodeTasks js with
    | some t, some ts => some (t :: ts)
    | _, _ => none

/-- What the first statement of the script leaves in `todoList`. -/
inductive Loaded where
  | taskList (l : List Task)
  | syntaxError
  | notTaskList
  | outOfFuel
deriving DecidableEq

/-- The statement `let todoList = JSON.parse(localStorage.getItem('todoData')) || []`
(`index.js:16`).  `getItem` gives `null` for a missing item and `JSON.parse`
reads `null` as the text `null`.  A `SyntaxError` thrown by `JSON.parse` is
not caught.  A truthy value that is not an array of task records is left in
`todoList` as it is; the data model does not describe it (`notTaskList`). -/
def loadTodoList (storage : Option String) : Loaded :=
  let text : List Char :=
    match storage with
    | none => "null".data
    | some s => s.data
  match jsonParse text with
  | ParseResult.value v =>
    if v.truthy then
      match v with
      | Json.arr items =>
        match decodeTasks items with
        | some l => Loaded.taskList l
        | none => Loaded.notTaskList
      | _ => Loaded.notTaskList
    else Loaded.taskList []
  | ParseResult.syntaxError => Loaded.syntaxError
  | ParseResult.outOfFuel => Loaded.outOfFuel

/-- Outcome of running the script on page load. -/
inductive Startup where
  | ready (s : State)
  | syntaxError
  | notTaskList
  | outOfFuel
deriving DecidableEq

/-- The whole script on page load (`index.js:1-134`): load `todoList`, install
the listeners, call `render()` once.  `rows` and `inputValue` are what the
document holds in `.taskbar` and `.input` before the script runs.  When
`JSON.parse` throws, the script stops at line 16: nothing is drawn and no
listener is installed. -/
def pageLoad (storage : Option String) (rows : List Row) (inputValue : String) : Startup :=
  match loadTodoList storage with
  | Loaded.taskList l =>
    Startup.ready (render
      { todoList := l, storage := storage, taskBar := rows, inputValue := inputValue
        inputFocused := false, trace := [] })
  | Loaded.syntaxError => Startup.syntaxError
  | Loaded.notTaskList => Startup.notTaskList
  | Loaded.outOfFuel => Startup.outOfFuel

/-! ## Sequences of user actions -/

/-- One user action on the page, with what the host supplies to its handler. -/
inductive Action where
  | add (rawText : String) (now : SafeInt) (today : String)
  | toggleComplete (id : Int)
  | delete (id : Int) (answer : Bool)
  | click (e : ClickTarget) (answer : Bool)

/-- The handler an action runs. -/
def step (s : State) : Action → State
  | Action.add rawText now today => add rawText now today s
  | Action.toggleComplete id => toggleComplete id s
  | Action.delete id answer => delete id answer s
  | Action.click e answer => taskBarClick e answer s

/-- Run the actions one after the other. -/
def run (s : State) (actions : List Action) : State :=
  actions.foldl step s

/-- The empty page: no task, nothing stored, nothing drawn. -/
def emptyState : State :=
  { todoList := [], storage := none, taskBar := [], inputValue := "", inputFocused := false
    trace := [] }

/-- The value `JSON.parse` builds from the text of one task record. -/
def taskJson (t : Task) : Json :=
  Json.obj
    [(some "id".data, Json.num t.id.val 0), (some "text".data, Json.str (some t.text.data)),
      (some "time".data, Json.str (some t.time.data)), (some "isDone".data, Json.bool t.isDone)]

/-- Fuel that is enough for each goal: twice the length of the input, plus
one for a value and two for the rest of an array or an object. -/
def fuelNeeded (goal : Goal) (cs : List Char) : Nat :=
  match goal with
  | Goal.value => 2 * cs.length + 1
  | Goal.elements _ => 2 * cs.length + 2
  | Goal.members _ => 2 * cs.length + 2

/-- Is the effect a dialog shown to the user (`alert` or `confirm`)? -/
def Effect.isNotice : Effect → Bool
  | Effect.alert _ => true
  | Effect.confirm _ => true
  | Effect.setItem _ _ => false
  | Effect.redraw => false

/-- The dialogs among the effects of a trace, in order. -/
def notices (trace : List Effect) : List Effect :=
  trace.filter Effect.isNotice

/-- Single removal, in the words of the spec: the list without the first
task that carries the id. -/
def removeFirst (id : Int) : List Task → List Task
  | [] => []
  | t :: ts => if t.id.val = id then ts else t :: removeFirst id ts

/-- The ids of a list are pairwise distinct. -/
def DistinctIds (l : List Task) : Prop :=
  l.Pairwise (fun a b => a.id.val ≠ b.id.val)

instance (l : List Task) : Decidable (DistinctIds l) := by
  unfold DistinctIds
  infer_instance

/-- The state is in step with `todoList`: the container was filled with one
`li` per task, in order, each as `render` assigns it, and the stored snapshot
is the text of the list. -/
def InStep (s : State) : Prop :=
  s.taskBar = s.todoList.map renderRow ∧ s.storage = some (jsonStringify s.todoList)

/-- A page holding three tasks, two of them with the same id, drawn and stored. -/
def sampleState : State :=
  render
    { emptyState with
      todoList :=
        [{ id := ⟨1, by decide⟩, text := "A", time := "2024/1/1", isDone := false },
         { id := ⟨2, by decide⟩, text := "B", time := "2024/1/1", isDone := true },
         { id := ⟨2, by decide⟩, text := "C", time := "2024/1/2", isDone := false }] }

/-- A page holding two tasks with different ids, drawn and stored. -/
def twoTasks : State :=
  render
    { emptyState with
      todoList :=
        [{ id := ⟨1700000000000, by decide⟩, text := "A", time := "2024/1/1", isDone := false },
         { id := ⟨1700000000500, by decide⟩, text := "B", time := "2024/1/1", isDone := false }] }

/-- A task text that holds markup: it closes the text `span` and opens a `li`
of class `task-item` whose `data-id` is 99. -/
def injectedText : String :=
  "</span></li><li class=\"task-item\" data-id=\"99\">x"

/-- The page after loading with nothing stored and adding `injectedText` with
the clock at 1700000000000. -/
def injectedState : State :=
  run (render emptyState) [Action.add injectedText ⟨1700000000000, by decide⟩ "2024/1/1"]

/-! # Properties -/

/-! ## Characters and digits -/

theorem char_eq_of_toNat_eq {c d : Char} (h : c.toNat = d.toNat) : c = d := by
  rw [← Char.ofNat_toNat c, h, Char.ofNat_toNat]

theorem toNat_digitChar (d : Nat) (h : d < 10) : (digitChar d).toNat = 48 + d := by
  unfold digitChar
  interval_cases d <;> rfl

theorem isDigit_digitChar (d : Nat) (h : d < 10) : isDigit (digitChar d) = true := by
  simp [isDigit, toNat_digitChar d h]
  omega

theorem natDigitsAux_eq (n : Nat) :
    ∀ fuel acc, n < fuel → natDigitsAux fuel n acc = natDigits n ++ acc := by
  induction n using Nat.strong_induction_on with
  | _ n ih =>
    intro fuel acc hlt
    cases fuel with
    | zero => omega
    | succ f =>
      by_cases h10 : n < 10
      · simp [natDigits, natDigitsAux, h10]
      · have hdiv : n / 10 < n := by omega
        have h1 := ih (n / 10) hdiv f (digitChar (n % 10) :: acc) (by omega)
        have h2 := ih (n / 10) hdiv n [digitChar (n % 10)] hdiv
        simp [natDigits, natDigitsAux, h10, h1, h2]

theorem natDigits_small (n : Nat) (h : n < 10) : natDigits n = [digitChar n] := by
  simp [natDigits, natDigitsAux, h]

theorem natDigits_large (n : Nat) (h : ¬ n < 10) :
    natDigits n = natDigits (n / 10) ++ [digitChar (n % 10)] := by
  have hdiv : n / 10 < n := by omega
  have h2 := natDigitsAux_eq (n / 10) n [digitChar (n % 10)] hdiv
  simp [natDigits, natDigitsAux, h, h2]

theorem digitsValue_append (ds : List Char) (c : Char) :
    digitsValue (ds ++ [c]) = 10 * digitsValue ds + (c.toNat - 48) := by
  simp [digitsValue, List.foldl_append]

theorem digitsValue_natDigits (n : Nat) : digitsValue (natDigits n) = n := by
  induction n using Nat.strong_induction_on with
  | _ n ih =>
    by_cases h10 : n < 10
    · rw [natDigits_small n h10]
      simp [digitsValue, toNat_digitChar n h10]
    · rw [natDigits_large n h10, digitsValue_append, ih (n / 10) (by omega),
        toNat_digitChar (n % 10) (by omega)]
      omega

theorem all_isDigit_natDigits (n : Nat) : ∀ c ∈ natDigits n, isDigit c = true := by
  induction n using Nat.strong_induction_on with
  | _ n ih =>
    by_cases h10 : n < 10
    · rw [natDigits_small n h10]
      intro c hc
      simp at hc
      subst hc
      exact isDigit_digitChar n h10
    · rw [natDigits_large n h10]
      intro c hc
      rcases List.mem_append.mp hc with h | h
      · exact ih (n / 10) (by omega) c h
      · simp at h
        subst h
        exact isDigit_digitChar _ (by omega)

/-- The numeral of `n` is its leading digit followed by further digits; the
leading digit is `0` only for `n = 0`, whose numeral is the single `0`. -/
theorem natDigits_head (n : Nat) :
    ∃ d ds, natDigits n = d :: ds ∧ isDigit d = true ∧ (d = '0' → ds = []) := by
  induction n using Nat.strong_induction_on with
  | _ n ih =>
    by_cases h10 : n < 10
    · exact ⟨digitChar n, [], natDigits_small n h10, isDigit_digitChar n h10, fun _ => rfl⟩
    · obtain ⟨d, ds, hd, hdig, hz⟩ := ih (n / 10) (by omega)
      refine ⟨d, ds ++ [digitChar (n % 10)], ?_, hdig, ?_⟩
      · rw [natDigits_large n h10, hd]; rfl
      · intro h0
        exfalso
        have hv := digitsValue_natDigits (n / 10)
        rw [hd, h0, hz h0] at hv
        simp [digitsValue] at hv
        omega

theorem spanDigits_append (ds rest : List Char) (hds : ∀ c ∈ ds, isDigit c = true)
    (hrest : ∀ c r, rest = c :: r → isDigit c = false) :
    spanDigits (ds ++ rest) = (ds, rest) := by
  induction ds with
  | nil =>
    cases rest with
    | nil => rfl
    | cons c r => simp [spanDigits, hrest c r rfl]
  | cons d ds ih =>
    have hd : isDigit d = true := hds d (by simp)
    have := ih (fun c hc => hds c (by simp [hc]))
    simp [spanDigits, hd, this]

/-! ## Reading back a number -/

theorem parseFraction_end (neg : Bool) (int : List Char) (c : Char) (rest : List Char)
    (h1 : c ≠ '.') (h2 : c ≠ 'e') (h3 : c ≠ 'E') :
    parseFraction neg int (c :: rest)
      = Parsed.ok (Json.num ((if neg then -1 else 1) * (digitsValue int : Int)) 0) (c :: rest) := by
  simp [parseFraction, parseExponent, h1, h2, h3]

theorem parseInteger_natDigits (neg : Bool) (k : Nat) (c : Char) (rest : List Char)
    (hc : isDigit c = false) (h1 : c ≠ '.') (h2 : c ≠ 'e') (h3 : c ≠ 'E') :
    parseInteger neg (natDigits k ++ c :: rest)
      = Parsed.ok (Json.num ((if neg then -1 else 1) * (k : Int)) 0) (c :: rest) := by
  obtain ⟨d, ds, hd, hdig, hz⟩ := natDigits_head k
  have hv := digitsValue_natDigits k
  have hall := all_isDigit_natDigits k
  rw [hd] at hv hall
  rw [hd]
  by_cases h0 : d = '0'
  · have hds := hz h0
    subst hds
    subst h0
    simp only [parseInteger, List.cons_append, List.nil_append, hdig, if_true]
    rw [parseFraction_end neg _ c rest h1 h2 h3, hv]
  · have hspan : spanDigits (ds ++ c :: rest) = (ds, c :: rest) :=
      spanDigits_append ds (c :: rest) (fun x hx => hall x (by simp [hx]))
        (by intro x r hxr; cases hxr; exact hc)
    simp only [parseInteger, List.cons_append, hdig, if_true, h0, if_false, hspan]
    rw [parseFraction_end neg _ c rest h1 h2 h3, hv]

theorem parseNumber_numberToString (n : Int) (c : Char) (rest : List Char)
    (hc : isDigit c = false) (h1 : c ≠ '.') (h2 : c ≠ 'e') (h3 : c ≠ 'E') :
    parseNumber (numberToString n ++ c :: rest) = Parsed.ok (Json.num n 0) (c :: rest) := by
  unfold numberToString
  by_cases hn : n < 0
  · simp only [hn, if_true, List.cons_append, parseNumber]
    rw [parseInteger_natDigits true n.natAbs c rest hc h1 h2 h3]
    have : (if true = true then (-1 : Int) else 1) * (n.natAbs : Int) = n := by
      simp only [if_true]
      omega
    rw [this]
  · obtain ⟨d, ds, hd, hdig, _⟩ := natDigits_head n.natAbs
    have hne : d ≠ '-' := by
      intro h
      rw [h] at hdig
      exact absurd hdig (by decide)
    have hstep : parseNumber (natDigits n.natAbs ++ c :: rest)
        = parseInteger false (natDigits n.natAbs ++ c :: rest) := by
      rw [hd]
      simp [parseNumber, hne]
    simp only [hn, if_false]
    rw [hstep, parseInteger_natDigits false n.natAbs c rest hc h1 h2 h3]
    have : (if false = true then (-1 : Int) else 1) * (n.natAbs : Int) = n := by
      simp only [Bool.false_eq_true, if_false]
      omega
    rw [this]

/-! ## Reading back a string -/

theorem parseString_simpleEscape (a : StrAcc) (e ch : Char) (tail : List Char)
    (hu : e ≠ 'u') (h : simpleEscape e = some ch) :
    parseString a ('\\' :: e :: tail) = parseString (a.pushChar ch) tail := by
  conv_lhs => unfold parseString
  simp [hu, h]

theorem parseString_quote (a : StrAcc) (rest : List Char) :
    parseString a ('"' :: rest) = Parsed.ok a.finish rest := by
  conv_lhs => unfold parseString
  simp

theorem parseString_verbatim (a : StrAcc) (c : Char) (tail : List Char)
    (e1 : c ≠ '"') (e2 : c ≠ '\\') (h32 : ¬ c.toNat < 32) :
    parseString a (c :: tail) = parseString (a.pushChar c) tail := by
  conv_lhs => unfold parseString
  simp [e1, e2, h32]

theorem parseString_escapeChar_control (n : Nat) (hn : n < 32) (acc tail : List Char) :
    parseString { chars := acc, pending := none, lone := false } (escapeChar (Char.ofNat n) ++ tail)
      = parseString { chars := Char.ofNat n :: acc, pending := none, lone := false } tail := by
  interval_cases n <;>
    first
    | rfl
    | exact parseString_simpleEscape _ _ _ tail (by decide) rfl

theorem parseString_escapeChar (c : Char) (acc tail : List Char) :
    parseString { chars := acc, pending := none, lone := false } (escapeChar c ++ tail)
      = parseString { chars := c :: acc, pending := none, lone := false } tail := by
  by_cases h32 : c.toNat < 32
  · have h := parseString_escapeChar_control c.toNat h32 acc tail
    rwa [Char.ofNat_toNat] at h
  · by_cases h34 : c.toNat = 34
    · have hc : c = '"' := char_eq_of_toNat_eq h34
      subst hc
      exact parseString_simpleEscape _ _ _ tail (by decide) rfl
    · by_cases h92 : c.toNat = 92
      · have hc : c = '\\' := char_eq_of_toNat_eq h92
        subst hc
        exact parseString_simpleEscape _ _ _ tail (by decide) rfl
      · have e1 : c ≠ '"' := fun h => h34 (by rw [h]; rfl)
        have e2 : c ≠ '\\' := fun h => h92 (by rw [h]; rfl)
        have hesc : escapeChar c = [c] := by
          unfold escapeChar
          have : c.toNat ≠ 8 ∧ c.toNat ≠ 9 ∧ c.toNat ≠ 10 ∧ c.toNat ≠ 12 ∧ c.toNat ≠ 13 := by omega
          simp [this, h34, h92, h32]
        rw [hesc]
        exact parseString_verbatim _ c tail e1 e2 h32

theorem parseString_escapeChars (s : List Char) :
    ∀ (acc rest : List Char),
      parseString { chars := acc, pending := none, lone := false } (escapeChars s ++ '"' :: rest)
        = Parsed.ok (some (acc.reverse ++ s)) rest := by
  induction s with
  | nil =>
    intro acc rest
    simp [escapeChars, parseString_quote, StrAcc.finish]
  | cons c s ih =>
    intro acc rest
    simp only [escapeChars, List.append_assoc]
    rw [parseString_escapeChar, ih]
    simp

/-! ## Reading back a snapshot -/

theorem char_ne_of_toNat_ne {c d : Char} (h : c.toNat ≠ d.toNat) : c ≠ d :=
  fun e => h (by rw [e])

theorem skipWs_cons (c : Char) (r : List Char) (h : isJsonWs c = false) :
    skipWs (c :: r) = c :: r := by
  simp [skipWs, List.dropWhile, h]

theorem stringifyTask_eq (t : Task) (rest : List Char) :
    stringifyTask t ++ rest
      = Char.ofNat 123 :: ('"' :: (escapeChars "id".data ++ '"' :: ':' :: (numberToString t.id.val
        ++ ',' :: '"' :: (escapeChars "text".data ++ '"' :: ':' :: '"' :: (escapeChars t.text.data
        ++ '"' :: ',' :: '"' :: (escapeChars "time".data ++ '"' :: ':' :: '"' :: (escapeChars t.time.data
        ++ '"' :: ',' :: '"' :: (escapeChars "isDone".data ++ '"' :: ':' :: (boolText t.isDone
        ++ Char.ofNat 125 :: rest))))))))) := by
  simp [stringifyTask, quoteJSONString, escapeChars, escapeChar]

theorem parseJson_value_number (f : Nat) (n : Int) (c : Char) (rest : List Char)
    (hc : isDigit c = false) (h1 : c ≠ '.') (h2 : c ≠ 'e') (h3 : c ≠ 'E') :
    parseJson (f + 1) Goal.value (numberToString n ++ c :: rest)
      = Parsed.ok (Json.num n 0) (c :: rest) := by
  have hnum := parseNumber_numberToString n c rest hc h1 h2 h3
  have hhead : ∃ d r, numberToString n ++ c :: rest = d :: r ∧ (d = '-' ∨ isDigit d = true) := by
    unfold numberToString
    by_cases hn : n < 0
    · exact ⟨'-', natDigits n.natAbs ++ c :: rest, by simp [hn], Or.inl rfl⟩
    · obtain ⟨d, ds, hd, hdig, _⟩ := natDigits_head n.natAbs
      exact ⟨d, ds ++ c :: rest, by simp [hn, hd], Or.inr hdig⟩
  obtain ⟨d, r, hdr, hd⟩ := hhead
  rw [hdr] at hnum ⊢
  have hrange : d.toNat = 45 ∨ (48 ≤ d.toNat ∧ d.toNat ≤ 57) := by
    rcases hd with h | h
    · left; rw [h]; rfl
    · right; simpa [isDigit] using h
  have hws : isJsonWs d = false := by
    simp only [isJsonWs, Bool.or_eq_false_iff, beq_eq_false_iff_ne]
    omega
  have e1 : d ≠ '"' := char_ne_of_toNat_ne (by show d.toNat ≠ 34; omega)
  have e2 : d ≠ '[' := char_ne_of_toNat_ne (by show d.toNat ≠ 91; omega)
  have e3 : d.toNat ≠ 123 := by omega
  have e4 : d ≠ 'n' := char_ne_of_toNat_ne (by show d.toNat ≠ 110; omega)
  have e5 : d ≠ 't' := char_ne_of_toNat_ne (by show d.toNat ≠ 116; omega)
  have e6 : d ≠ 'f' := char_ne_of_toNat_ne (by show d.toNat ≠ 102; omega)
  simp only [parseJson, skipWs_cons d r hws, e1, e2, e3, e4, e5, e6, if_false, hnum]

theorem parseJson_value_string (f : Nat) (s rest : List Char) :
    parseJson (f + 1) Goal.value ('"' :: (escapeChars s ++ '"' :: rest))
      = Parsed.ok (Json.str (some s)) rest := by
  have hs := parseString_escapeChars s [] rest
  have hws : skipWs ('"' :: (escapeChars s ++ '"' :: rest)) = '"' :: (escapeChars s ++ '"' :: rest) :=
    skipWs_cons _ _ (by decide)
  simp only [parseJson, hws, if_true, StrAcc.empty, hs, List.reverse_nil, List.nil_append]

theorem parseJson_value_bool (f : Nat) (b : Bool) (rest : List Char) :
    parseJson (f + 1) Goal.value (boolText b ++ rest) = Parsed.ok (Json.bool b) rest := by
  cases b
  · have hws : skipWs ('f' :: 'a' :: 'l' :: 's' :: 'e' :: rest) = 'f' :: 'a' :: 'l' :: 's' :: 'e' :: rest :=
      skipWs_cons _ _ (by decide)
    show parseJson (f + 1) Goal.value ('f' :: 'a' :: 'l' :: 's' :: 'e' :: rest) = _
    simp +decide [parseJson, hws, dropLiteral]
  · have hws : skipWs ('t' :: 'r' :: 'u' :: 'e' :: rest) = 't' :: 'r' :: 'u' :: 'e' :: rest :=
      skipWs_cons _ _ (by decide)
    show parseJson (f + 1) Goal.value ('t' :: 'r' :: 'u' :: 'e' :: rest) = _
    simp +decide [parseJson, hws, dropLiteral]

/-- One member of an object followed by a comma: the parser goes on to the
next member with this one recorded. -/
theorem parseJson_member_next (f : Nat) (acc : List (Option (List Char) × Json))
    (k vtext : List Char) (v : Json) (rest : List Char)
    (hv : parseJson f Goal.value (vtext ++ ',' :: rest) = Parsed.ok v (',' :: rest)) :
    parseJson (f + 1) (Goal.members acc) ('"' :: (escapeChars k ++ '"' :: ':' :: (vtext ++ ',' :: rest)))
      = parseJson f (Goal.members ((some k, v) :: acc)) rest := by
  have hk := parseString_escapeChars k [] (':' :: (vtext ++ ',' :: rest))
  have hws1 : skipWs ('"' :: (escapeChars k ++ '"' :: ':' :: (vtext ++ ',' :: rest)))
      = '"' :: (escapeChars k ++ '"' :: ':' :: (vtext ++ ',' :: rest)) := skipWs_cons _ _ (by decide)
  have hws2 : skipWs (':' :: (vtext ++ ',' :: rest)) = ':' :: (vtext ++ ',' :: rest) :=
    skipWs_cons _ _ (by decide)
  have hws3 : skipWs (',' :: rest) = ',' :: rest := skipWs_cons _ _ (by decide)
  simp only [parseJson, hws1, if_true, StrAcc.empty, hk, List.reverse_nil, List.nil_append, hws2,
    hv, hws3]

/-- The last member of an object, followed by the closing brace. -/
theorem parseJson_member_last (f : Nat) (acc : List (Option (List Char) × Json))
    (k vtext : List Char) (v : Json) (rest : List Char)
    (hv : parseJson f Goal.value (vtext ++ Char.ofNat 125 :: rest)
      = Parsed.ok v (Char.ofNat 125 :: rest)) :
    parseJson (f + 1) (Goal.members acc)
        ('"' :: (escapeChars k ++ '"' :: ':' :: (vtext ++ Char.ofNat 125 :: rest)))
      = Parsed.ok (Json.obj ((some k, v) :: acc).reverse) rest := by
  have hk := parseString_escapeChars k [] (':' :: (vtext ++ Char.ofNat 125 :: rest))
  have hws1 : skipWs ('"' :: (escapeChars k ++ '"' :: ':' :: (vtext ++ Char.ofNat 125 :: rest)))
      = '"' :: (escapeChars k ++ '"' :: ':' :: (vtext ++ Char.ofNat 125 :: rest)) :=
    skipWs_cons _ _ (by decide)
  have hws2 : skipWs (':' :: (vtext ++ Char.ofNat 125 :: rest))
      = ':' :: (vtext ++ Char.ofNat 125 :: rest) := skipWs_cons _ _ (by decide)
  have hws3 : skipWs (Char.ofNat 125 :: rest) = Char.ofNat 125 :: rest := skipWs_cons _ _ (by decide)
  have hne : Char.ofNat 125 ≠ ',' := by decide
  have h125 : (Char.ofNat 125).toNat = 125 := by decide
  simp only [parseJson, hws1, if_true, StrAcc.empty, hk, List.reverse_nil, List.nil_append, hws2,
    hv, hws3, hne, if_false, h125]

/-- A member whose value is a string, followed by a comma. -/
theorem parseJson_member_string (f : Nat) (acc : List (Option (List Char) × Json))
    (k s rest : List Char) :
    parseJson (f + 2) (Goal.members acc)
        ('"' :: (escapeChars k ++ '"' :: ':' :: '"' :: (escapeChars s ++ '"' :: ',' :: rest)))
      = parseJson (f + 1) (Goal.members ((some k, Json.str (some s)) :: acc)) rest := by
  have hv : parseJson (f + 1) Goal.value (('"' :: (escapeChars s ++ ['"'])) ++ ',' :: rest)
      = Parsed.ok (Json.str (some s)) (',' :: rest) := by
    have := parseJson_value_string f s (',' :: rest)
    simpa using this
  have h := parseJson_member_next (f + 1) acc k ('"' :: (escapeChars s ++ ['"']))
    (Json.str (some s)) rest hv
  simpa using h

/-- The text of one task record is read back as that record, whatever follows. -/
theorem parseJson_stringifyTask (fuel : Nat) (hf : 6 ≤ fuel) (t : Task) (rest : List Char) :
    parseJson fuel Goal.value (stringifyTask t ++ rest) = Parsed.ok (taskJson t) rest := by
  obtain ⟨f, rfl⟩ : ∃ f, fuel = f + 6 := ⟨fuel - 6, by omega⟩
  rw [stringifyTask_eq]
  have hws1 : ∀ r, skipWs (Char.ofNat 123 :: r) = Char.ofNat 123 :: r :=
    fun r => skipWs_cons _ _ (by decide)
  have hws2 : ∀ r, skipWs ('"' :: r) = '"' :: r := fun r => skipWs_cons _ _ (by decide)
  have hopen : ∀ r, parseJson (f + 6) Goal.value (Char.ofNat 123 :: '"' :: r)
      = parseJson (f + 5) (Goal.members []) ('"' :: r) := by
    intro r
    simp +decide only [parseJson, hws1, hws2, if_false, if_true]
  rw [hopen]
  rw [parseJson_member_next (f + 4) [] "id".data (numberToString t.id.val) (Json.num t.id.val 0) _
    (parseJson_value_number (f + 3) t.id.val ',' _ (by decide) (by decide) (by decide) (by decide))]
  rw [parseJson_member_string (f + 2), parseJson_member_string (f + 1)]
  rw [parseJson_member_last (f + 1) _ "isDone".data (boolText t.isDone) (Json.bool t.isDone) rest
    (parseJson_value_bool f t.isDone _)]
  rfl

theorem stringifyElements_cons (t : Task) (ts : List Task) :
    ∃ r, stringifyElements (t :: ts) = Char.ofNat 123 :: r := by
  cases ts with
  | nil => exact ⟨_, by simpa using stringifyTask_eq t []⟩
  | cons t1 ts =>
    simp only [stringifyElements]
    rw [stringifyTask_eq]
    exact ⟨_, rfl⟩

theorem length_le_stringifyElements (l : List Task) :
    l.length ≤ (stringifyElements l).length := by
  induction l with
  | nil => simp
  | cons t ts ih =>
    cases ts with
    | nil =>
      obtain ⟨r, hr⟩ := stringifyElements_cons t []
      rw [hr]
      simp
    | cons t1 ts =>
      simp only [stringifyElements, List.length_append, List.length_cons] at ih ⊢
      omega

/-- The elements of a snapshot are read back one by one, in order. -/
theorem parseJson_elements (l : List Task) :
    ∀ (fuel : Nat) (acc : List Json) (rest : List Char), l ≠ [] → l.length + 6 ≤ fuel →
      parseJson fuel (Goal.elements acc) (stringifyElements l ++ ']' :: rest)
        = Parsed.ok (Json.arr (acc.reverse ++ l.map taskJson)) rest := by
  induction l with
  | nil => intro _ _ _ h; exact absurd rfl h
  | cons t ts ih =>
    intro fuel acc rest _ hf
    obtain ⟨f, rfl⟩ : ∃ f, fuel = f + 1 := ⟨fuel - 1, by simp at hf; omega⟩
    cases ts with
    | nil =>
      have hv := parseJson_stringifyTask f (by simp at hf; omega) t (']' :: rest)
      have hws : skipWs (']' :: rest) = ']' :: rest := skipWs_cons _ _ (by decide)
      simp +decide only [stringifyElements, parseJson, hv, hws, if_false, if_true]
      simp
    | cons t1 ts =>
      have hv := parseJson_stringifyTask f (by simp at hf; omega) t
        (',' :: (stringifyElements (t1 :: ts) ++ ']' :: rest))
      have hws : ∀ r, skipWs (',' :: r) = ',' :: r := fun r => skipWs_cons _ _ (by decide)
      have hnext := ih f (taskJson t :: acc) rest (by simp) (by simp at hf ⊢; omega)
      simp only [stringifyElements, List.append_assoc, List.cons_append, parseJson, hv, hws,
        if_true, hnext]
      simp

/-- Reading back a snapshot written by `JSON.stringify`. -/
theorem jsonParse_jsonStringify (l : List Task) :
    jsonParse (jsonStringify l).data = ParseResult.value (Json.arr (l.map taskJson)) := by
  have hws : ∀ r, skipWs ('[' :: r) = '[' :: r := fun r => skipWs_cons _ _ (by decide)
  cases l with
  | nil =>
    have hws2 : skipWs [']'] = [']'] := skipWs_cons _ _ (by decide)
    simp +decide [jsonParse, jsonStringify, stringifyElements, parseJson, hws, hws2, skipWs]
  | cons t ts =>
    obtain ⟨r, hr⟩ := stringifyElements_cons t ts
    have hlen := length_le_stringifyElements (t :: ts)
    have hel := parseJson_elements (t :: ts)
      (2 * (jsonStringify (t :: ts)).data.length + 1) [] [] (by simp)
      (by simp only [jsonStringify, List.length_cons, List.length_append] at hlen ⊢; omega)
    have hws3 : skipWs (Char.ofNat 123 :: (r ++ [']'])) = Char.ofNat 123 :: (r ++ [']']) :=
      skipWs_cons _ _ (by decide)
    have hne : Char.ofNat 123 ≠ ']' := by decide
    simp only [jsonParse]
    have hstep : parseJson (2 * (jsonStringify (t :: ts)).data.length + 2) Goal.value
        (jsonStringify (t :: ts)).data
        = parseJson (2 * (jsonStringify (t :: ts)).data.length + 1) (Goal.elements [])
            (stringifyElements (t :: ts) ++ [']']) := by
      simp only [jsonStringify, parseJson, hws, if_false, if_true, hr, List.cons_append, hws3, hne]
      simp +decide
    rw [hstep, hel]
    simp [skipWs]

theorem decodeSafeInt_zero (n : SafeInt) : decodeSafeInt n.val 0 = some n := by
  have h : (n.val * 10 ^ (0 : Int).toNat).natAbs ≤ 9007199254740991 := by
    simpa using n.isSafe
  simp only [decodeSafeInt, le_refl, if_true, dif_pos h]
  cases n
  simp

theorem decodeTask_taskJson (t : Task) : decodeTask (taskJson t) = some t := by
  simp [decodeTask, taskJson, decodeSafeInt_zero]

theorem decodeTasks_map_taskJson (l : List Task) : decodeTasks (l.map taskJson) = some l := by
  induction l with
  | nil => rfl
  | cons t ts ih => simp [decodeTasks, decodeTask_taskJson, ih]

/-- Loading a snapshot that `render` wrote gives back the list it was written from. -/
theorem loadTodoList_jsonStringify (l : List Task) :
    loadTodoList (some (jsonStringify l)) = Loaded.taskList l := by
  simp [loadTodoList, jsonParse_jsonStringify, Json.truthy, decodeTasks_map_taskJson]

/-! ## The parser never runs out of fuel -/

theorem parseString_rest_aux (n : Nat) :
    ∀ (cs : List Char) (a : StrAcc) (v : Option (List Char)) (rest : List Char),
      cs.length ≤ n → parseString a cs = Parsed.ok v rest → rest.length < cs.length := by
  induction n with
  | zero =>
    intro cs a v rest hn h
    cases cs with
    | nil => simp [parseString] at h
    | cons c cs => simp at hn
  | succ n ih =>
    intro cs a v rest hn h
    unfold parseString at h
    split at h
    · cases h
    · rename_i c cs0
      simp only [List.length_cons] at hn ⊢
      split at h
      · cases h; omega
      · split at h
        · split at h
          · cases h
          · rename_i e cs1
            simp only [List.length_cons] at hn ⊢
            split at h
            · split at h
              · rename_i h1 h2 h3 h4 cs2
                simp only [List.length_cons] at hn ⊢
                split at h
                · have := ih cs2 _ v rest (by omega) h
                  omega
                · cases h
              · cases h
            · split at h
              · have := ih cs1 _ v rest (by omega) h
                omega
              · cases h
        · split at h
          · cases h
          · have := ih cs0 _ v rest (by omega) h
            omega

theorem parseString_rest (a : StrAcc) (cs : List Char) (v : Option (List Char))
    (rest : List Char) (h : parseString a cs = Parsed.ok v rest) : rest.length < cs.length :=
  parseString_rest_aux cs.length cs a v rest (le_refl _) h

theorem parseString_ne_outOfFuel_aux (n : Nat) :
    ∀ (cs : List Char) (a : StrAcc), cs.length ≤ n → parseString a cs ≠ Parsed.outOfFuel := by
  induction n with
  | zero =>
    intro cs a hn
    cases cs with
    | nil => simp [parseString]
    | cons c cs => simp at hn
  | succ n ih =>
    intro cs a hn h
    unfold parseString at h
    split at h
    · cases h
    · rename_i c cs0
      simp only [List.length_cons] at hn
      split at h
      · cases h
      · split at h
        · split at h
          · cases h
          · rename_i e cs1
            simp only [List.length_cons] at hn
            split at h
            · split at h
              · rename_i h1 h2 h3 h4 cs2
                simp only [List.length_cons] at hn
                split at h
                · exact ih cs2 _ (by omega) h
                · cases h
              · cases h
            · split at h
              · exact ih cs1 _ (by omega) h
              · cases h
        · split at h
          · cases h
          · exact ih cs0 _ (by omega) h

theorem parseString_ne_outOfFuel (a : StrAcc) (cs : List Char) :
    parseString a cs ≠ Parsed.outOfFuel :=
  parseString_ne_outOfFuel_aux cs.length cs a (le_refl _)

theorem length_spanDigits_snd (cs : List Char) : (spanDigits cs).2.length ≤ cs.length := by
  induction cs with
  | nil => simp [spanDigits]
  | cons c cs ih =>
    simp only [spanDigits]
    split
    · simp only [List.length_cons]; omega
    · simp

theorem length_skipWs (cs : List Char) : (skipWs cs).length ≤ cs.length := by
  unfold skipWs
  exact (List.dropWhile_sublist _).length_le

theorem dropLiteral_rest (lit : List Char) :
    ∀ (cs r : List Char), dropLiteral lit cs = some r → r.length ≤ cs.length := by
  induction lit with
  | nil => intro cs r h; simp [dropLiteral] at h; subst h; exact le_refl _
  | cons p ps ih =>
    intro cs r h
    cases cs with
    | nil => simp [dropLiteral] at h
    | cons c cs =>
      simp only [dropLiteral] at h
      split at h
      · have := ih cs r h
        simp only [List.length_cons]; omega
      · cases h

theorem parseExponent_rest (m : Int) (frac : Nat) (cs : List Char) (v : Json) (rest : List Char)
    (h : parseExponent m frac cs = Parsed.ok v rest) : rest.length ≤ cs.length := by
  unfold parseExponent at h
  split at h
  · cases h; simp
  · rename_i c r
    split at h
    · simp only at h
      split at h
      · cases h
      · cases h
        have hs := length_spanDigits_snd
          (match r with
            | [] => (false, [])
            | s :: r1 =>
              if s = '-' then (true, r1) else if s = '+' then (false, r1) else (false, s :: r1)).2
        have hr : (match r with
            | [] => ((false, []) : Bool × List Char)
            | s :: r1 =>
              if s = '-' then (true, r1) else if s = '+' then (false, r1) else (false, s :: r1)).2.length
            ≤ r.length := by
          cases r with
          | nil => simp
          | cons s r1 =>
            simp only
            split
            · simp
            · split <;> simp
        simp only [List.length_cons]
        omega
    · cases h; simp

theorem parseExponent_ne_outOfFuel (m : Int) (frac : Nat) (cs : List Char) :
    parseExponent m frac cs ≠ Parsed.outOfFuel := by
  intro h
  unfold parseExponent at h
  split at h
  · cases h
  · split at h
    · simp only at h
      split at h <;> cases h
    · cases h

theorem parseFraction_rest (neg : Bool) (int cs : List Char) (v : Json) (rest : List Char)
    (h : parseFraction neg int cs = Parsed.ok v rest) : rest.length ≤ cs.length := by
  unfold parseFraction at h
  simp only at h
  split at h
  · cases h; simp
  · rename_i c r
    split at h
    · split at h
      · cases h
      · have := parseExponent_rest _ _ _ v rest h
        have := length_spanDigits_snd r
        simp only [List.length_cons]; omega
    · exact parseExponent_rest _ _ _ v rest h

theorem parseFraction_ne_outOfFuel (neg : Bool) (int cs : List Char) :
    parseFraction neg int cs ≠ Parsed.outOfFuel := by
  intro h
  unfold parseFraction at h
  simp only at h
  split at h
  · cases h
  · split at h
    · split at h
      · cases h
      · exact parseExponent_ne_outOfFuel _ _ _ h
    · exact parseExponent_ne_outOfFuel _ _ _ h

theorem parseInteger_rest (neg : Bool) (cs : List Char) (v : Json) (rest : List Char)
    (h : parseInteger neg cs = Parsed.ok v rest) : rest.length < cs.length := by
  unfold parseInteger at h
  split at h
  · cases h
  · rename_i d r
    simp only [List.length_cons]
    split at h
    · split at h
      · have := parseFraction_rest _ _ _ v rest h
        omega
      · have := parseFraction_rest _ _ _ v rest h
        have := length_spanDigits_snd r
        omega
    · cases h

theorem parseInteger_ne_outOfFuel (neg : Bool) (cs : List Char) :
    parseInteger neg cs ≠ Parsed.outOfFuel := by
  intro h
  unfold parseInteger at h
  split at h
  · cases h
  · split at h
    · split at h <;> exact parseFraction_ne_outOfFuel _ _ _ h
    · cases h

theorem parseNumber_rest (cs : List Char) (v : Json) (rest : List Char)
    (h : parseNumber cs = Parsed.ok v rest) : rest.length < cs.length := by
  unfold parseNumber at h
  split at h
  · cases h
  · rename_i c r
    split at h
    · have := parseInteger_rest _ _ v rest h
      simp only [List.length_cons]; omega
    · exact parseInteger_rest _ _ v rest h

theorem parseNumber_ne_outOfFuel (cs : List Char) : parseNumber cs ≠ Parsed.outOfFuel := by
  intro h
  unfold parseNumber at h
  split at h
  · cases h
  · split at h <;> exact parseInteger_ne_outOfFuel _ _ h

theorem skipWs_cons_length {cs : List Char} {c : Char} {r : List Char}
    (h : skipWs cs = c :: r) : r.length < cs.length := by
  have := length_skipWs cs
  rw [h] at this
  simp only [List.length_cons] at this
  omega

/-- Every successful parse reads at least one character. -/
theorem parseJson_rest (fuel : Nat) :
    ∀ (goal : Goal) (cs : List Char) (v : Json) (rest : List Char),
      parseJson fuel goal cs = Parsed.ok v rest → rest.length < cs.length := by
  induction fuel with
  | zero => intro goal cs v rest h; simp [parseJson] at h
  | succ fuel ih =>
    intro goal cs v rest h
    cases goal with
    | value =>
      simp only [parseJson] at h
      split at h
      · cases h
      · rename_i c r hws
        have hlen := skipWs_cons_length hws
        split at h
        · split at h
          · rename_i s r1 hs
            cases h
            have := parseString_rest _ _ _ _ hs
            omega
          · cases h
          · cases h
        · split at h
          · split at h
            · cases h
            · rename_i c1 r1 hws1
              have hlen1 := skipWs_cons_length hws1
              split at h
              · cases h; omega
              · have := ih _ _ _ _ h
                simp only [List.length_cons] at this
                omega
          · split at h
            · split at h
              · cases h
              · rename_i c1 r1 hws1
                have hlen1 := skipWs_cons_length hws1
                split at h
                · cases h; omega
                · have := ih _ _ _ _ h
                  simp only [List.length_cons] at this
                  omega
            · split at h
              · split at h
                · rename_i r1 hd
                  cases h
                  have := dropLiteral_rest _ _ _ hd
                  omega
                · cases h
              · split at h
                · split at h
                  · rename_i r1 hd
                    cases h
                    have := dropLiteral_rest _ _ _ hd
                    omega
                  · cases h
                · split at h
                  · split at h
                    · rename_i r1 hd
                      cases h
                      have := dropLiteral_rest _ _ _ hd
                      omega
                    · cases h
                  · have := parseNumber_rest _ _ _ h
                    simp only [List.length_cons] at this
                    omega
    | elements acc =>
      simp only [parseJson] at h
      split at h
      · rename_i v1 r hv
        have h1 := ih _ _ _ _ hv
        split at h
        · cases h
        · rename_i c r1 hws
          have hlen := skipWs_cons_length hws
          split at h
          · have := ih _ _ _ _ h
            omega
          · split at h
            · cases h; omega
            · cases h
      · cases h
      · cases h
    | members acc =>
      simp only [parseJson] at h
      split at h
      · cases h
      · rename_i q r hws
        have hlen := skipWs_cons_length hws
        split at h
        · split at h
          · rename_i k r1 hk
            have h1 := parseString_rest _ _ _ _ hk
            split at h
            · cases h
            · rename_i c r2 hws2
              have hlen2 := skipWs_cons_length hws2
              split at h
              · split at h
                · rename_i v1 r3 hv
                  have h3 := ih _ _ _ _ hv
                  split at h
                  · cases h
                  · rename_i c1 r4 hws4
                    have hlen4 := skipWs_cons_length hws4
                    split at h
                    · have := ih _ _ _ _ h
                      omega
                    · split at h
                      · cases h; omega
                      · cases h
                · cases h
                · cases h
              · cases h
          · cases h
          · cases h
        · cases h

theorem parseJson_ne_outOfFuel (fuel : Nat) :
    ∀ (goal : Goal) (cs : List Char), fuelNeeded goal cs ≤ fuel →
      parseJson fuel goal cs ≠ Parsed.outOfFuel := by
  induction fuel with
  | zero =>
    intro goal cs hf
    cases goal <;> simp [fuelNeeded] at hf
  | succ fuel ih =>
    intro goal cs hf h
    cases goal with
    | value =>
      simp only [fuelNeeded] at hf
      simp only [parseJson] at h
      split at h
      · cases h
      · rename_i c r hws
        have hlen := skipWs_cons_length hws
        split at h
        · split at h
          · cases h
          · cases h
          · rename_i hs
            exact parseString_ne_outOfFuel _ _ hs
        · split at h
          · split at h
            · cases h
            · rename_i c1 r1 hws1
              have hlen1 := skipWs_cons_length hws1
              split at h
              · cases h
              · exact ih _ _ (by simp only [fuelNeeded, List.length_cons]; omega) h
          · split at h
            · split at h
              · cases h
              · rename_i c1 r1 hws1
                have hlen1 := skipWs_cons_length hws1
                split at h
                · cases h
                · exact ih _ _ (by simp only [fuelNeeded, List.length_cons]; omega) h
            · split at h
              · split at h <;> cases h
              · split at h
                · split at h <;> cases h
                · split at h
                  · split at h <;> cases h
                  · exact parseNumber_ne_outOfFuel _ h
    | elements acc =>
      simp only [fuelNeeded] at hf
      simp only [parseJson] at h
      split at h
      · rename_i v1 r hv
        have h1 := parseJson_rest _ _ _ _ _ hv
        split at h
        · cases h
        · rename_i c r1 hws
          have hlen := skipWs_cons_length hws
          split at h
          · exact ih _ _ (by simp only [fuelNeeded]; omega) h
          · split at h <;> cases h
      · cases h
      · rename_i hv
        exact ih _ _ (by simp only [fuelNeeded]; omega) hv
    | members acc =>
      simp only [fuelNeeded] at hf
      simp only [parseJson] at h
      split at h
      · cases h
      · rename_i q r hws
        have hlen := skipWs_cons_length hws
        split at h
        · split at h
          · rename_i k r1 hk
            have h1 := parseString_rest _ _ _ _ hk
            split at h
            · cases h
            · rename_i c r2 hws2
              have hlen2 := skipWs_cons_length hws2
              split at h
              · split at h
                · rename_i v1 r3 hv
                  have h3 := parseJson_rest _ _ _ _ _ hv
                  split at h
                  · cases h
                  · rename_i c1 r4 hws4
                    have hlen4 := skipWs_cons_length hws4
                    split at h
                    · exact ih _ _ (by simp only [fuelNeeded]; omega) h
                    · split at h <;> cases h
                · cases h
                · rename_i hv
                  exact ih _ _ (by simp only [fuelNeeded]; omega) hv
              · cases h
          · cases h
          · rename_i hk
            exact parseString_ne_outOfFuel _ _ hk
        · cases h

/-- The fuel `jsonParse` gives the parser is enough for every text. -/
theorem jsonParse_ne_outOfFuel (text : List Char) : jsonParse text ≠ ParseResult.outOfFuel := by
  intro h
  unfold jsonParse at h
  split at h
  · split at h <;> cases h
  · cases h
  · rename_i hp
    exact parseJson_ne_outOfFuel _ _ _ (by simp only [fuelNeeded]; omega) hp

/-! ## `render` -/

theorem foldl_append_rows (l : List Task) :
    ∀ acc : List Row, l.foldl (fun rows item => rows ++ [renderRow item]) acc
      = acc ++ l.map renderRow := by
  induction l with
  | nil => intro acc; simp
  | cons t ts ih => intro acc; simp [ih]

@[simp] theorem render_todoList (s : State) : (render s).todoList = s.todoList := rfl

@[simp] theorem render_taskBar (s : State) : (render s).taskBar = s.todoList.map renderRow := by
  simp [render, foldl_append_rows]

@[simp] theorem render_storage (s : State) :
    (render s).storage = some (jsonStringify s.todoList) := rfl

@[simp] theorem render_trace (s : State) :
    (render s).trace
      = s.trace ++ [Effect.setItem "todoData" (jsonStringify s.todoList), Effect.redraw] := rfl

@[simp] theorem render_inputValue (s : State) : (render s).inputValue = s.inputValue := rfl

theorem inStep_render (s : State) : InStep (render s) := by
  simp [InStep]

/-! ## `trim` -/

theorem trimStart_all (cs : List Char) (h : ∀ c ∈ cs, isWhiteSpace c = true) :
    trimStart cs = [] := by
  unfold trimStart
  exact List.dropWhile_eq_nil_iff.mpr h

theorem jsTrim_all (rawText : String) (h : ∀ c ∈ rawText.data, isWhiteSpace c = true) :
    jsTrim rawText = "" := by
  unfold jsTrim
  rw [trimStart_all _ h]
  rfl

/-! ## The add handler -/

theorem add_of_nonempty (rawText : String) (now : SafeInt) (today : String) (s : State)
    (h : jsTrim rawText ≠ "") :
    add rawText now today s
      = { render { s with
            inputValue := rawText
            todoList := s.todoList
              ++ [{ id := now, text := jsTrim rawText, time := today, isDone := false }] } with
          inputValue := "", inputFocused := true } := by
  simp [add, btnAddClick, h]

theorem add_of_empty (rawText : String) (now : SafeInt) (today : String) (s : State)
    (h : jsTrim rawText = "") :
    add rawText now today s
      = { s with inputValue := rawText, trace := s.trace ++ [Effect.alert "空内容无法加入"] } := by
  simp [add, btnAddClick, h]

theorem jsTrim_buy_milk : jsTrim "buy milk" = "buy milk" := by decide

/-! ## Claims about `add` -/

/-- C1. `add` with an input whose trimmed value is not empty appends exactly
one task to the list: its text is the trimmed input, its `isDone` is false,
its id and date are the clock's; the length grows by one and every task that
was in the list keeps its position and its fields.  On the empty list, adding
`buy milk` leaves in storage the snapshot of that single record, and loading
the snapshot gives back exactly that one record. -/
theorem add_appends_task (s : State) (rawText : String) (now : SafeInt) (today : String)
    (h : jsTrim rawText ≠ "") :
    (add rawText now today s).todoList
        = s.todoList ++ [{ id := now, text := jsTrim rawText, time := today, isDone := false }]
      ∧ (add rawText now today s).todoList.length = s.todoList.length + 1
      ∧ (∀ i, i < s.todoList.length → (add rawText now today s).todoList[i]? = s.todoList[i]?)
      ∧ (rawText = "buy milk" → s.todoList = [] →
          (add rawText now today s).storage
              = some (jsonStringify [{ id := now, text := "buy milk", time := today, isDone := false }])
            ∧ loadTodoList (add rawText now today s).storage
              = Loaded.taskList [{ id := now, text := "buy milk", time := today, isDone := false }]) := by
  rw [add_of_nonempty rawText now today s h]
  refine ⟨rfl, by simp, ?_, ?_⟩
  · intro i hi
    show (s.todoList ++ _)[i]? = _
    exact List.getElem?_append_left hi
  · intro hraw hnil
    subst hraw
    have hst : ∀ l : List Task, ({ render { s with
            inputValue := "buy milk"
            todoList := l } with
          inputValue := "", inputFocused := true } : State).storage = some (jsonStringify l) :=
      fun _ => rfl
    rw [hst, hnil, jsTrim_buy_milk]
    exact ⟨rfl, loadTodoList_jsonStringify _⟩

/-- C1, at a concrete input: adding `"  buy milk "` to the empty page. -/
theorem add_appends_task_witness :
    jsTrim "  buy milk " ≠ ""
      ∧ (add "  buy milk " ⟨1700000000000, by decide⟩ "2024/1/1" emptyState).todoList
        = [{ id := ⟨1700000000000, by decide⟩, text := "buy milk", time := "2024/1/1",
             isDone := false }] :=
  ⟨by decide,
    (add_appends_task emptyState "  buy milk " ⟨1700000000000, by decide⟩ "2024/1/1"
      (by decide)).1⟩

/-- C2. `add` with an input that is empty or made of white space only shows
the validation alert and nothing else: the list, the stored snapshot and the
drawn rows are as before, and the trace gains the alert alone, so neither a
write to storage nor a redraw took place. -/
theorem add_blank_rejected (s : State) (rawText : String) (now : SafeInt) (today : String)
    (h : ∀ c ∈ rawText.data, isWhiteSpace c = true) :
    (add rawText now today s).todoList = s.todoList
      ∧ (add rawText now today s).storage = s.storage
      ∧ (add rawText now today s).taskBar = s.taskBar
      ∧ (add rawText now today s).trace = s.trace ++ [Effect.alert "空内容无法加入"] := by
  rw [add_of_empty rawText now today s (jsTrim_all rawText h)]
  exact ⟨rfl, rfl, rfl, rfl⟩

/-- C2, at a concrete input: two spaces typed into the empty page. -/
theorem add_blank_rejected_witness :
    (∀ c ∈ "  ".data, isWhiteSpace c = true)
      ∧ (add "  " ⟨1700000000000, by decide⟩ "2024/1/1" emptyState).todoList = []
      ∧ (add "  " ⟨1700000000000, by decide⟩ "2024/1/1" emptyState).trace
        = [Effect.alert "空内容无法加入"] :=
  ⟨by decide,
    (add_blank_rejected emptyState "  " ⟨1700000000000, by decide⟩ "2024/1/1" (by decide)).1,
    (add_blank_rejected emptyState "  " ⟨1700000000000, by decide⟩ "2024/1/1" (by decide)).2.2.2⟩

/-! ## The click handler -/

theorem delete_confirmed (id : Int) (s : State) :
    delete id true s
      = render { s with
          trace := s.trace ++ [Effect.confirm "确定删除？"]
          todoList := s.todoList.filter (fun item => decide (item.id.val ≠ id)) } := by
  simp [delete, taskBarClick, toggleBranch]

theorem delete_declined (id : Int) (s : State) :
    delete id false s = { s with trace := s.trace ++ [Effect.confirm "确定删除？"] } := by
  simp [delete, taskBarClick]

theorem toggleComplete_eq (id : Int) (s : State) :
    toggleComplete id s
      = match s.todoList.find? (fun item => decide (item.id.val = id)) with
        | some _ => render { s with todoList := flipFirst id s.todoList }
        | none => s := by
  simp [toggleComplete, taskBarClick, toggleBranch]

theorem filter_absent (id : Int) (l : List Task) (h : ∀ t ∈ l, t.id.val ≠ id) :
    l.filter (fun item => decide (item.id.val ≠ id)) = l := by
  apply List.filter_eq_self.mpr
  intro t ht
  simpa using h t ht

theorem removeFirst_eq_filter (id : Int) (l : List Task) (h : DistinctIds l) :
    l.filter (fun item => decide (item.id.val ≠ id)) = removeFirst id l := by
  induction l with
  | nil => rfl
  | cons t ts ih =>
    have hp := List.pairwise_cons.mp h
    by_cases ht : t.id.val = id
    · have habs : ∀ u ∈ ts, u.id.val ≠ id := fun u hu => ht ▸ (hp.1 u hu).symm
      rw [List.filter_cons_of_neg (by simpa using ht), filter_absent id ts habs]
      simp [removeFirst, ht]
    · rw [List.filter_cons_of_pos (by simpa using ht), ih hp.2]
      simp [removeFirst, ht]

theorem find_none_of_absent (id : Int) (l : List Task) (h : ∀ t ∈ l, t.id.val ≠ id) :
    l.find? (fun item => decide (item.id.val = id)) = none := by
  apply List.find?_eq_none.mpr
  intro t ht
  simpa using h t ht

theorem find_isSome_of_present (id : Int) (l : List Task) (h : ∃ t ∈ l, t.id.val = id) :
    ∃ t, l.find? (fun item => decide (item.id.val = id)) = some t := by
  cases hf : l.find? (fun item => decide (item.id.val = id)) with
  | some t => exact ⟨t, rfl⟩
  | none =>
    obtain ⟨t, ht, hid⟩ := h
    have := List.find?_eq_none.mp hf t ht
    simp [hid] at this

theorem flipFirst_split (id : Int) (l : List Task) (h : ∃ t ∈ l, t.id.val = id) :
    ∃ pre t post, l = pre ++ t :: post ∧ (∀ u ∈ pre, u.id.val ≠ id) ∧ t.id.val = id
      ∧ flipFirst id l = pre ++ { t with isDone := !t.isDone } :: post := by
  induction l with
  | nil => obtain ⟨t, ht, _⟩ := h; simp at ht
  | cons a as ih =>
    by_cases ha : a.id.val = id
    · exact ⟨[], a, as, rfl, by simp, ha, by simp [flipFirst, ha]⟩
    · have h1 : ∃ t ∈ as, t.id.val = id := by
        obtain ⟨t, ht, hid⟩ := h
        rcases List.mem_cons.mp ht with e | e
        · exact absurd (e ▸ hid) ha
        · exact ⟨t, e, hid⟩
      obtain ⟨pre, t, post, hl, hpre, hid, hflip⟩ := ih h1
      refine ⟨a :: pre, t, post, by simp [hl], ?_, hid, by simp [flipFirst, ha, hflip]⟩
      intro u hu
      rcases List.mem_cons.mp hu with e | e
      · exact e ▸ ha
      · exact hpre u e

theorem flipFirst_flipFirst (id : Int) (l : List Task) : flipFirst id (flipFirst id l) = l := by
  induction l with
  | nil => rfl
  | cons a as ih =>
    by_cases ha : a.id.val = id
    · simp [flipFirst, ha]
    · simp [flipFirst, ha, ih]

theorem find_flipFirst_isSome (id : Int) (l : List Task) (t : Task)
    (h : l.find? (fun item => decide (item.id.val = id)) = some t) :
    ∃ u, (flipFirst id l).find? (fun item => decide (item.id.val = id)) = some u := by
  induction l with
  | nil => simp at h
  | cons a as ih =>
    by_cases ha : a.id.val = id
    · exact ⟨{ a with isDone := !a.isDone }, by simp [flipFirst, ha, List.find?_cons]⟩
    · have h1 : as.find? (fun item => decide (item.id.val = id)) = some t := by
        simpa [List.find?_cons, ha] using h
      obtain ⟨u, hu⟩ := ih h1
      exact ⟨u, by simp [flipFirst, ha, List.find?_cons, hu]⟩

theorem flipFirst_absent (id : Int) (l : List Task) (h : ∀ t ∈ l, t.id.val ≠ id) :
    flipFirst id l = l := by
  induction l with
  | nil => rfl
  | cons a as ih =>
    have ha : a.id.val ≠ id := h a (by simp)
    simp [flipFirst, ha, ih (fun t ht => h t (by simp [ht]))]

/-! ## Claims about `delete` -/

/-- C4. A confirmed `delete(id)` leaves exactly the tasks whose id differs
from `id`, in their original order: the result is the filter of the list, a
task is in it iff it was in the list with another id, and it is a sublist of
the list.  When the ids of the list are pairwise distinct, the result is the
list with the first task of that id removed (single removal). -/
theorem delete_confirmed_filters (s : State) (id : Int) :
    (delete id true s).todoList = s.todoList.filter (fun t => decide (t.id.val ≠ id))
      ∧ (∀ t, t ∈ (delete id true s).todoList ↔ t ∈ s.todoList ∧ t.id.val ≠ id)
      ∧ (delete id true s).todoList.Sublist s.todoList
      ∧ (DistinctIds s.todoList → (delete id true s).todoList = removeFirst id s.todoList) := by
  rw [delete_confirmed]
  refine ⟨rfl, ?_, ?_, ?_⟩
  · intro t
    simp [List.mem_filter]
  · exact List.filter_sublist _
  · intro h
    exact removeFirst_eq_filter id s.todoList h

/-- C4, at a concrete input: the first of two tasks with different ids is deleted. -/
theorem delete_confirmed_filters_witness :
    DistinctIds twoTasks.todoList
      ∧ (delete 1700000000000 true twoTasks).todoList
        = removeFirst 1700000000000 twoTasks.todoList
      ∧ removeFirst 1700000000000 twoTasks.todoList
        = [{ id := ⟨1700000000500, by decide⟩, text := "B", time := "2024/1/1", isDone := false }] :=
  ⟨by decide, (delete_confirmed_filters twoTasks 1700000000000).2.2.2 (by decide), by decide⟩

/-- C5 as stated fails: on a page whose tasks have ids 1700000000000 and
1700000000500, `delete(7)` shows the confirmation prompt, whether the user
then confirms or declines. -/
theorem delete_absent_prompts :
    (∀ t ∈ twoTasks.todoList, t.id.val ≠ 7)
      ∧ notices (delete 7 true twoTasks).trace = [Effect.confirm "确定删除？"]
      ∧ notices (delete 7 false twoTasks).trace = [Effect.confirm "确定删除？"]
      ∧ notices twoTasks.trace = [] := by
  decide

/-- C5, amended. `delete(id)` with an id no task carries leaves the list as it
is and shows no alert, but it does show the confirmation prompt, once.  When
the user declines, storage and the drawn rows are untouched.  When the user
confirms, `render` runs and storage holds the snapshot of the unchanged list,
so a snapshot that was in step with the list keeps its content. -/
theorem delete_absent_keeps_list (s : State) (id : Int) (answer : Bool)
    (h : ∀ t ∈ s.todoList, t.id.val ≠ id) :
    (delete id answer s).todoList = s.todoList
      ∧ notices (delete id answer s).trace = notices s.trace ++ [Effect.confirm "确定删除？"]
      ∧ (answer = false →
          (delete id answer s).storage = s.storage ∧ (delete id answer s).taskBar = s.taskBar
            ∧ (delete id answer s).trace = s.trace ++ [Effect.confirm "确定删除？"])
      ∧ (answer = true → (delete id answer s).storage = some (jsonStringify s.todoList))
      ∧ (s.storage = some (jsonStringify s.todoList) → (delete id answer s).storage = s.storage) := by
  cases answer
  · rw [delete_declined]
    refine ⟨rfl, ?_, fun _ => ⟨rfl, rfl, rfl⟩, fun h => absurd h (by decide), fun _ => rfl⟩
    simp [notices, Effect.isNotice]
  · rw [delete_confirmed]
    refine ⟨?_, ?_, fun h => absurd h (by decide), fun _ => ?_, fun hs => ?_⟩
    · simp only [render_todoList]
      exact filter_absent id s.todoList h
    · simp [notices, Effect.isNotice]
    · simp only [render_storage, filter_absent id s.todoList h]
    · simp only [render_storage, filter_absent id s.todoList h, hs]

/-- C5 amended, at a concrete input: `delete(7)` confirmed on a page without
a task 7. -/
theorem delete_absent_keeps_list_witness :
    (∀ t ∈ twoTasks.todoList, t.id.val ≠ 7)
      ∧ (delete 7 true twoTasks).todoList = twoTasks.todoList
      ∧ (delete 7 true twoTasks).storage = twoTasks.storage :=
  ⟨by decide, (delete_absent_keeps_list twoTasks 7 true (by decide)).1,
    (delete_absent_keeps_list twoTasks 7 true (by decide)).2.2.2.2 rfl⟩

/-! ## Claims about `toggleComplete` -/

/-- C9. `toggleComplete(id)` applied twice gives back the list it started
from, whether one task, several tasks or no task carries the id. -/
theorem toggleComplete_twice (s : State) (id : Int) :
    (toggleComplete id (toggleComplete id s)).todoList = s.todoList := by
  rw [toggleComplete_eq id s]
  cases hf : s.todoList.find? (fun item => decide (item.id.val = id)) with
  | none =>
    simp only []
    rw [toggleComplete_eq id s, hf]
  | some t =>
    simp only []
    rw [toggleComplete_eq]
    obtain ⟨u, hu⟩ := find_flipFirst_isSome id s.todoList t hf
    simp only [render_todoList, hu]
    exact flipFirst_flipFirst id s.todoList

/-- C10. `toggleComplete(id)`: when some task carries the id, the list splits
as `pre ++ t :: post` with `t` the first task of that id, and the new list is
`pre ++ t' :: post` where `t'` is `t` with `isDone` negated and the same id,
text and time; `pre` and `post` (later tasks of the same id included) are
untouched, so length and order are kept.  When no task carries the id, the
whole state is unchanged: no render, no write to storage, no effect. -/
theorem toggleComplete_frame (s : State) (id : Int) :
    ((∃ t ∈ s.todoList, t.id.val = id) →
        ∃ pre t post, s.todoList = pre ++ t :: post ∧ (∀ u ∈ pre, u.id.val ≠ id) ∧ t.id.val = id
          ∧ (toggleComplete id s).todoList
            = pre ++ { id := t.id, text := t.text, time := t.time, isDone := !t.isDone } :: post
          ∧ (toggleComplete id s).todoList.length = s.todoList.length)
      ∧ ((∀ t ∈ s.todoList, t.id.val ≠ id) → toggleComplete id s = s) := by
  constructor
  · intro h
    obtain ⟨t0, ht0⟩ := find_isSome_of_present id s.todoList h
    obtain ⟨pre, t, post, hl, hpre, hid, hflip⟩ := flipFirst_split id s.todoList h
    refine ⟨pre, t, post, hl, hpre, hid, ?_, ?_⟩
    · rw [toggleComplete_eq, ht0]
      simpa using hflip
    · rw [toggleComplete_eq, ht0]
      simp only [render_todoList, hflip]
      rw [hl]
      simp
  · intro h
    rw [toggleComplete_eq, find_none_of_absent id s.todoList h]

/-- C10, at a concrete input: two tasks carry id 2; only the first is negated.
And no task carries id 7. -/
theorem toggleComplete_frame_witness :
    (∃ t ∈ sampleState.todoList, t.id.val = 2)
      ∧ (toggleComplete 2 sampleState).todoList
        = [{ id := ⟨1, by decide⟩, text := "A", time := "2024/1/1", isDone := false },
           { id := ⟨2, by decide⟩, text := "B", time := "2024/1/1", isDone := false },
           { id := ⟨2, by decide⟩, text := "C", time := "2024/1/2", isDone := false }]
      ∧ (∀ t ∈ sampleState.todoList, t.id.val ≠ 7)
      ∧ toggleComplete 7 sampleState = sampleState :=
  ⟨by decide, by decide, by decide, (toggleComplete_frame sampleState 7).2 (by decide)⟩

/-! ## When ids stay distinct -/

theorem map_id_flipFirst (id : Int) (l : List Task) :
    (flipFirst id l).map (fun t => t.id.val) = l.map (fun t => t.id.val) := by
  induction l with
  | nil => rfl
  | cons a as ih =>
    by_cases ha : a.id.val = id
    · simp [flipFirst, ha]
    · simp [flipFirst, ha, ih]

theorem distinctIds_iff (l : List Task) :
    DistinctIds l ↔ (l.map (fun t => t.id.val)).Pairwise (fun a b => a ≠ b) := by
  unfold DistinctIds
  rw [List.pairwise_map]

theorem distinctIds_flipFirst (id : Int) (l : List Task) (h : DistinctIds l) :
    DistinctIds (flipFirst id l) := by
  rw [distinctIds_iff] at h ⊢
  rw [map_id_flipFirst]
  exact h

theorem distinctIds_filter (p : Task → Bool) (l : List Task) (h : DistinctIds l) :
    DistinctIds (l.filter p) :=
  List.Pairwise.sublist (List.filter_sublist l) h

theorem distinctIds_toggleBranch (e : ClickTarget) (id : Int) (s : State)
    (h : DistinctIds s.todoList) : DistinctIds (toggleBranch e id s).todoList := by
  unfold toggleBranch
  split
  · split
    · exact distinctIds_flipFirst id s.todoList h
    · exact h
  · exact h

/-- No click in the container makes two ids equal. -/
theorem distinctIds_taskBarClick (e : ClickTarget) (answer : Bool) (s : State)
    (h : DistinctIds s.todoList) : DistinctIds (taskBarClick e answer s).todoList := by
  unfold taskBarClick
  split
  · exact h
  · split
    · simp only
      split
      · exact h
      · exact distinctIds_toggleBranch _ _ _ (distinctIds_filter _ s.todoList h)
    · exact distinctIds_toggleBranch _ _ _ h

/-- An add keeps the ids distinct when the clock value it reads is the id of
no task in the list. -/
theorem distinctIds_add (rawText : String) (now : SafeInt) (today : String) (s : State)
    (h : DistinctIds s.todoList) (hfresh : ∀ t ∈ s.todoList, t.id.val ≠ now.val) :
    DistinctIds (add rawText now today s).todoList := by
  by_cases ht : jsTrim rawText = ""
  · rw [add_of_empty rawText now today s ht]
    exact h
  · rw [add_of_nonempty rawText now today s ht]
    show DistinctIds (s.todoList ++ _)
    unfold DistinctIds
    rw [List.pairwise_append]
    refine ⟨h, List.pairwise_singleton _ _, ?_⟩
    intro a ha b hb
    simp only [List.mem_singleton] at hb
    subst hb
    exact hfresh a ha

/-! ## Ids -/

/-- C6 fails on the code: two adds that read the same `Date.now()` give two
tasks the same id.  Starting from the empty page, adding `A` and then `B`
with the clock at 1700000000000 both times leaves two tasks whose ids are
equal. -/
theorem ids_collide_same_millisecond :
    (run emptyState
        [Action.add "A" ⟨1700000000000, by decide⟩ "2024/1/1",
         Action.add "B" ⟨1700000000000, by decide⟩ "2024/1/1"]).todoList
      = [{ id := ⟨1700000000000, by decide⟩, text := "A", time := "2024/1/1", isDone := false },
         { id := ⟨1700000000000, by decide⟩, text := "B", time := "2024/1/1", isDone := false }]
      ∧ ¬ DistinctIds (run emptyState
        [Action.add "A" ⟨1700000000000, by decide⟩ "2024/1/1",
         Action.add "B" ⟨1700000000000, by decide⟩ "2024/1/1"]).todoList := by
  decide

/-! ## Start of the page -/

theorem loadTodoList_none : loadTodoList none = Loaded.taskList [] := by decide

theorem loadTodoList_ne_outOfFuel (storage : Option String) :
    loadTodoList storage ≠ Loaded.outOfFuel := by
  intro h
  unfold loadTodoList at h
  simp only at h
  split at h
  · split at h
    · split at h
      · split at h <;> cases h
      · cases h
    · cases h
  · cases h
  · rename_i hp
    exact jsonParse_ne_outOfFuel _ hp

theorem pageLoad_ready (storage : Option String) (rows : List Row) (inputValue : String)
    (s0 : State) (h : pageLoad storage rows inputValue = Startup.ready s0) :
    ∃ l, loadTodoList storage = Loaded.taskList l
      ∧ s0 = render { todoList := l, storage := storage, taskBar := rows, inputValue := inputValue
                      inputFocused := false, trace := [] } := by
  unfold pageLoad at h
  split at h
  · rename_i l hl
    cases h
    exact ⟨l, hl, rfl⟩
  · cases h
  · cases h
  · cases h

theorem pageLoad_of_taskList (storage : Option String) (rows : List Row) (inputValue : String)
    (l : List Task) (h : loadTodoList storage = Loaded.taskList l) :
    pageLoad storage rows inputValue
      = Startup.ready (render { todoList := l, storage := storage, taskBar := rows
                                inputValue := inputValue, inputFocused := false, trace := [] }) := by
  simp [pageLoad, h]

/-! ## The state stays in step with the list -/

theorem inStep_toggleBranch (e : ClickTarget) (id : Int) (s : State) (h : InStep s) :
    InStep (toggleBranch e id s) := by
  unfold toggleBranch
  split
  · split
    · exact inStep_render _
    · exact h
  · exact h

theorem inStep_taskBarClick (e : ClickTarget) (answer : Bool) (s : State) (h : InStep s) :
    InStep (taskBarClick e answer s) := by
  unfold taskBarClick
  split
  · exact h
  · split
    · simp only
      split
      · exact h
      · exact inStep_toggleBranch _ _ _ (inStep_render _)
    · exact inStep_toggleBranch _ _ _ h

theorem inStep_add (rawText : String) (now : SafeInt) (today : String) (s : State)
    (h : InStep s) : InStep (add rawText now today s) := by
  by_cases ht : jsTrim rawText = ""
  · rw [add_of_empty rawText now today s ht]
    exact h
  · rw [add_of_nonempty rawText now today s ht]
    exact inStep_render _

theorem inStep_step (s : State) (a : Action) (h : InStep s) : InStep (step s a) := by
  cases a with
  | add rawText now today => exact inStep_add rawText now today s h
  | toggleComplete id => exact inStep_taskBarClick _ _ s h
  | delete id answer => exact inStep_taskBarClick _ _ s h
  | click e answer => exact inStep_taskBarClick _ _ s h

theorem inStep_run (actions : List Action) : ∀ s : State, InStep s → InStep (run s actions) := by
  induction actions with
  | nil => intro s h; exact h
  | cons a as ih =>
    intro s h
    exact ih (step s a) (inStep_step s a h)

theorem inStep_pageLoad (storage : Option String) (rows : List Row) (inputValue : String)
    (s0 : State) (h : pageLoad storage rows inputValue = Startup.ready s0) : InStep s0 := by
  obtain ⟨l, _, hs⟩ := pageLoad_ready storage rows inputValue s0 h
  rw [hs]
  exact inStep_render _

theorem numberToString_injective (a b : Int) (h : numberToString a = numberToString b) :
    a = b := by
  have ha := parseNumber_numberToString a ',' [] (by decide) (by decide) (by decide) (by decide)
  have hb := parseNumber_numberToString b ',' [] (by decide) (by decide) (by decide) (by decide)
  rw [h, hb] at ha
  cases ha
  rfl

theorem textClass_completed (b : Bool) : textClass b = "task-text completed" ↔ b = true := by
  cases b <;> decide

/-! ## Claims about the start of the page -/

/-- C3 as stated fails: with a truncated snapshot in storage, `JSON.parse`
throws a `SyntaxError`; the script stops there and no state is set up, so the
page does not start with the empty list. -/
theorem pageLoad_truncated_snapshot_throws :
    pageLoad (some "[\x7b\"id\":1700000000000,\"text\":\"buy milk\"") [] "" = Startup.syntaxError
      ∧ ¬ ∃ s, pageLoad (some "[\x7b\"id\":1700000000000,\"text\":\"buy milk\"") [] ""
          = Startup.ready s := by
  have h : pageLoad (some "[\x7b\"id\":1700000000000,\"text\":\"buy milk\"") [] ""
      = Startup.syntaxError := by decide
  refine ⟨h, ?_⟩
  rintro ⟨s, hs⟩
  rw [h] at hs
  cases hs

/-- C3, amended. With nothing stored under the key, the page starts with the
empty list and shows no dialog.  A stored text that is not valid JSON is not
recovered: `JSON.parse` throws and the start-up ends in that `SyntaxError`.
Start-up never ends for lack of fuel in the model. -/
theorem pageLoad_absent_or_invalid (rows : List Row) (inputValue : String) :
    (∃ s, pageLoad none rows inputValue = Startup.ready s ∧ s.todoList = []
        ∧ notices s.trace = [])
      ∧ (∀ text : String, jsonParse text.data = ParseResult.syntaxError →
          pageLoad (some text) rows inputValue = Startup.syntaxError)
      ∧ (∀ storage, pageLoad storage rows inputValue ≠ Startup.outOfFuel) := by
  refine ⟨⟨_, pageLoad_of_taskList none rows inputValue [] loadTodoList_none, rfl, ?_⟩, ?_, ?_⟩
  · simp [notices, Effect.isNotice]
  · intro text h
    simp [pageLoad, loadTodoList, h]
  · intro storage h
    unfold pageLoad at h
    split at h
    · cases h
    · cases h
    · cases h
    · rename_i hl
      exact loadTodoList_ne_outOfFuel storage hl

/-- C3 amended, at a concrete input: the text `oops` is not valid JSON. -/
theorem pageLoad_absent_or_invalid_witness :
    jsonParse "oops".data = ParseResult.syntaxError
      ∧ pageLoad (some "oops") [] "" = Startup.syntaxError :=
  ⟨rfl, (pageLoad_absent_or_invalid [] "").2.1 "oops" rfl⟩

/-! ## Claims about sequences of actions -/

/-- After the page has loaded and after every sequence of actions, the `li`
elements in the container are the ones `render` assigns for the tasks of
`todoList`, one per task and in list order: no `li` is left from an earlier
render and none is appended twice.  This is about the `li` elements and what
the script assigned to them, not about the children the browser parses from
their `innerHTML`. -/
theorem taskBar_eq_map_renderRow (storage : Option String) (rows : List Row)
    (inputValue : String) (s0 : State) (h : pageLoad storage rows inputValue = Startup.ready s0)
    (actions : List Action) :
    (run s0 actions).taskBar = (run s0 actions).todoList.map renderRow
      ∧ (run s0 actions).taskBar.length = (run s0 actions).todoList.length := by
  have hin := inStep_run actions s0 (inStep_pageLoad storage rows inputValue s0 h)
  exact ⟨hin.1, by rw [hin.1, List.length_map]⟩

/-- C7 fails on the code: the task's text is put into the row's markup
without escaping.  After adding the text
`</span></li><li class="task-item" data-id="99">x` at clock 1700000000000, the
list holds that one task, and the string `render` assigns to the `innerHTML`
of its `li` holds the text's tags as tags: the text `span` is closed empty and
a `li` of class `task-item` with `data-id` 99 is opened in front of the time
`span` and the delete button.  A delete click that reads id 99, confirmed,
leaves the task in the list. -/
theorem markup_in_text_breaks_row :
    injectedState.todoList
        = [{ id := ⟨1700000000000, by decide⟩, text := injectedText, time := "2024/1/1",
             isDone := false }]
      ∧ injectedState.taskBar
        = [{ className := "task-item"
             datasetId := "1700000000000"
             innerHTML :=
               "\n      <span class=\"task-text\"></span></li><li class=\"task-item\" data-id=\"99\">x</span>\n      <span class=\"task-time\">2024/1/1</span>\n      <button class=\"delete-btn\">删除</button>\n    " }]
      ∧ (delete 99 true injectedState).todoList = injectedState.todoList := by
  refine ⟨by decide, ?_, by decide⟩
  rfl

/-- C8. Writing the snapshot of a list as `render` does and loading it as the
first statement of the script does gives back the list itself, the empty
list included; so a page reloaded from what `render` left in storage starts
with the same list.  After the page has loaded and after every sequence of
actions, storage holds the snapshot of the current list, and a fresh start
from that storage begins with the current list. -/
theorem storage_reloads_todoList :
    (∀ l : List Task, loadTodoList (some (jsonStringify l)) = Loaded.taskList l)
      ∧ (∀ (s : State) (rows : List Row) (inputValue : String),
          ∃ s1, pageLoad (render s).storage rows inputValue = Startup.ready s1
            ∧ s1.todoList = s.todoList)
      ∧ (∀ (storage : Option String) (rows : List Row) (inputValue : String) (s0 : State),
          pageLoad storage rows inputValue = Startup.ready s0 →
          ∀ (actions : List Action) (rows1 : List Row) (inputValue1 : String),
            (run s0 actions).storage = some (jsonStringify (run s0 actions).todoList)
              ∧ ∃ s1, pageLoad (run s0 actions).storage rows1 inputValue1 = Startup.ready s1
                ∧ s1.todoList = (run s0 actions).todoList) := by
  refine ⟨loadTodoList_jsonStringify, ?_, ?_⟩
  · intro s rows inputValue
    exact ⟨_, pageLoad_of_taskList _ rows inputValue s.todoList
      (loadTodoList_jsonStringify s.todoList), rfl⟩
  · intro storage rows inputValue s0 h actions rows1 inputValue1
    have hin := inStep_run actions s0 (inStep_pageLoad storage rows inputValue s0 h)
    refine ⟨hin.2, _, pageLoad_of_taskList _ rows1 inputValue1 (run s0 actions).todoList ?_, rfl⟩
    rw [hin.2]
    exact loadTodoList_jsonStringify _

/-- C8, at a concrete run: after loading with nothing stored and adding
`buy milk`, a reload from storage starts with that one task. -/
theorem storage_reloads_todoList_witness :
    pageLoad none [] "" = Startup.ready (render emptyState)
      ∧ ∃ s1, pageLoad (run (render emptyState)
            [Action.add "buy milk" ⟨1700000000000, by decide⟩ "2024/1/1"]).storage [] ""
          = Startup.ready s1
        ∧ s1.todoList = (run (render emptyState)
            [Action.add "buy milk" ⟨1700000000000, by decide⟩ "2024/1/1"]).todoList :=
  ⟨by decide,
    (storage_reloads_todoList.2.2 none [] "" (render emptyState) (by decide)
      [Action.add "buy milk" ⟨1700000000000, by decide⟩ "2024/1/1"] [] "").2⟩

end TodoList
